import Mathlib

/-!
Verification of the sudoku genetic-algorithm solver.

The development shallowly embeds the C++ sources:
* `SudokuGrid.cpp` / `SudokuGrid.hpp` — the 9×9 board with a fixed-cell mask
  and the uniqueness-based scoring queries;
* `Chromosome.cpp` — a board plus a cached fitness, with the random
  sub-block completion routine;
* `GeneticOperations.cpp` — crossover, per-sub-block mutation, mutation,
  and local search;
* `Population.cpp` — best/worst queries, tournament selection, generation
  replacement;
* `Solver.cpp` — the generation loop.

The program draws randomness from a shared generator (`RandomUtils.hpp`).
Each random draw is modelled as an explicit input of the embedded function:
`std::shuffle` results become list parameters subject to a permutation
hypothesis, `rand_int(0, m)` outcomes become `Nat` parameters subject to a
`≤ m` hypothesis, and `rand_double() < rate` comparisons keep the drawn
value as a rational parameter.  Machine `int` values are modelled as `Nat`
(all quantities involved — cell values, scores, fitness — are non-negative
in the source).
-/

namespace SudokuGA

/-- Board state: the 9×9 value grid and the fixed-cell mask
(`SudokuGrid.hpp`: `std::array<std::array<int,9>,9> grid_;`
`std::array<std::array<bool,9>,9> fixed_;`). -/
structure SudokuGrid where
  grid : Fin 9 → Fin 9 → Nat
  fixed : Fin 9 → Fin 9 → Bool

instance : DecidableEq SudokuGrid := fun a b =>
  decidable_of_iff (a.grid = b.grid ∧ a.fixed = b.fixed) (by
    cases a; cases b; simp)

/-- `SudokuGrid::SudokuGrid()`: all cells empty, none fixed. -/
def SudokuGrid.empty : SudokuGrid :=
  { grid := fun _ _ => 0, fixed := fun _ _ => false }

instance : Inhabited SudokuGrid := ⟨SudokuGrid.empty⟩

/-- `SudokuGrid::get`. -/
def SudokuGrid.get (g : SudokuGrid) (row col : Fin 9) : Nat :=
  g.grid row col

/-- `SudokuGrid::set` (in-place assignment `grid_[row][col] = value`,
modelled functionally). -/
def SudokuGrid.set (g : SudokuGrid) (row col : Fin 9) (value : Nat) : SudokuGrid :=
  { g with grid := fun r c => if r = row ∧ c = col then value else g.grid r c }

/-- `SudokuGrid::is_fixed`. -/
def SudokuGrid.is_fixed (g : SudokuGrid) (row col : Fin 9) : Bool :=
  g.fixed row col

/-- `SudokuGrid::SudokuGrid(const std::string&)`: requires at least 81
characters; character `i` (row-major, `row = i / 9`, `col = i % 9`) gives a
fixed digit when it is `'1'`..`'9'` and an empty non-fixed cell otherwise.
The C++ loop writes each of the 81 cells exactly once from the
corresponding character, which the functional model expresses pointwise. -/
def SudokuGrid.ofString (puzzle : List Char) : Except String SudokuGrid :=
  if puzzle.length < 81 then
    .error "Puzzle string must have at least 81 characters"
  else
    .ok { grid := fun r c =>
            let ch := puzzle.getD (9 * r.val + c.val) ' '
            if '1' ≤ ch ∧ ch ≤ '9' then ch.toNat - '0'.toNat else 0
          fixed := fun r c =>
            let ch := puzzle.getD (9 * r.val + c.val) ' '
            decide ('1' ≤ ch ∧ ch ≤ '9') }

/-- The bitset-and-counter loop of `SudokuGrid::count_unique`: walk the
values, count a value the first time it is seen and lies in 1..9.  The
`seen` bitset is modelled as a finite set of digits. -/
def count_unique_go : List Nat → Finset Nat → Nat
  | [], _ => 0
  | v :: rest, seen =>
    if 1 ≤ v ∧ v ≤ 9 ∧ v ∉ seen then
      count_unique_go rest (insert v seen) + 1
    else
      count_unique_go rest seen

/-- `SudokuGrid::count_unique`. -/
def count_unique (values : List Nat) : Nat :=
  count_unique_go values ∅

/-- The cells of row `row` in order of increasing column (the row array
`grid_[row]`). -/
def SudokuGrid.row_values (g : SudokuGrid) (row : Fin 9) : List Nat :=
  (List.finRange 9).map fun c => g.grid row c

/-- The cells of column `col` in order of increasing row (the `column`
array built by `SudokuGrid::get_column_score`). -/
def SudokuGrid.col_values (g : SudokuGrid) (col : Fin 9) : List Nat :=
  (List.finRange 9).map fun r => g.grid r col

/-- `SudokuGrid::get_row_score`. -/
def SudokuGrid.get_row_score (g : SudokuGrid) (row : Fin 9) : Nat :=
  count_unique (g.row_values row)

/-- `SudokuGrid::get_column_score`. -/
def SudokuGrid.get_column_score (g : SudokuGrid) (col : Fin 9) : Nat :=
  count_unique (g.col_values col)

/-- `SudokuGrid::get_total_score`: the loop adds the row score and the
column score of each index `i = 0..8`. -/
def SudokuGrid.get_total_score (g : SudokuGrid) : Nat :=
  ∑ i : Fin 9, (g.get_row_score i + g.get_column_score i)

/-- `SudokuGrid::get_row_band_score`: the scores of the three rows
`3*band .. 3*band+2`. -/
def SudokuGrid.get_row_band_score (g : SudokuGrid) (band : Fin 3) : Nat :=
  ∑ j : Fin 3, g.get_row_score ⟨3 * band.val + j.val, by omega⟩

/-- `SudokuGrid::get_column_stack_score`: the scores of the three columns
`3*stack .. 3*stack+2`. -/
def SudokuGrid.get_column_stack_score (g : SudokuGrid) (stack : Fin 3) : Nat :=
  ∑ j : Fin 3, g.get_column_score ⟨3 * stack.val + j.val, by omega⟩

/-- `SudokuGrid::subblock_top_left`. -/
def SudokuGrid.subblock_top_left (subblock_index : Fin 9) : Nat × Nat :=
  (3 * (subblock_index.val / 3), 3 * (subblock_index.val % 3))

/-- All 81 cells in row-major order. -/
def allCells : List (Fin 9 × Fin 9) :=
  (List.finRange 9).flatMap fun r => (List.finRange 9).map fun c => (r, c)

/-- Cell `(r, c)` belongs to sub-block `b` exactly when `r` lies in the
block's row range `[3*(b/3), 3*(b/3)+2]` and `c` in its column range
`[3*(b%3), 3*(b%3)+2]`, i.e. `r/3 = b/3` and `c/3 = b%3`. -/
def inSubblock (b : Fin 9) (p : Fin 9 × Fin 9) : Prop :=
  p.1.val / 3 = b.val / 3 ∧ p.2.val / 3 = b.val % 3

instance (b : Fin 9) (p : Fin 9 × Fin 9) : Decidable (inSubblock b p) := by
  unfold inSubblock; infer_instance

/-- The nine cells of sub-block `b`, in the row-major order of the nested
loops `for r in [top, top+3) for c in [left, left+3)` of the source
(filtering the row-major list of all cells by block membership yields the
block's cells in exactly that order). -/
def subblockCells (b : Fin 9) : List (Fin 9 × Fin 9) :=
  allCells.filter fun p => decide (inSubblock b p)

/-- `SudokuGrid::get_subblock_non_fixed_positions`: the block's cells,
in the same row-major order, whose fixed flag is not set. -/
def SudokuGrid.get_subblock_non_fixed_positions (g : SudokuGrid) (b : Fin 9) :
    List (Fin 9 × Fin 9) :=
  (subblockCells b).filter fun p => !g.fixed p.1 p.2

/-- `SudokuGrid::copy_row_band_from`: rows `3*band .. 3*band+2` (values and
fixed flags) are taken from `other`; the remaining rows are untouched. -/
def SudokuGrid.copy_row_band_from (g other : SudokuGrid) (band : Fin 3) : SudokuGrid :=
  { grid := fun r c => if r.val / 3 = band.val then other.grid r c else g.grid r c
    fixed := fun r c => if r.val / 3 = band.val then other.fixed r c else g.fixed r c }

/-- `SudokuGrid::copy_column_stack_from`: columns `3*stack .. 3*stack+2`
(values and fixed flags) are taken from `other`. -/
def SudokuGrid.copy_column_stack_from (g other : SudokuGrid) (stack : Fin 3) : SudokuGrid :=
  { grid := fun r c => if c.val / 3 = stack.val then other.grid r c else g.grid r c
    fixed := fun r c => if c.val / 3 = stack.val then other.fixed r c else g.fixed r c }

/-- `SudokuGrid::is_solved`: total score equals `MAX_SCORE` (162). -/
def SudokuGrid.is_solved (g : SudokuGrid) : Bool :=
  g.get_total_score == 162

/-- `Chromosome`: a board plus the cached fitness (`cached_fitness_`),
which is 0 on construction and updated by `recalculate_fitness`. -/
structure Chromosome where
  grid : SudokuGrid
  cached_fitness : Nat
deriving DecidableEq

instance : Inhabited Chromosome := ⟨⟨SudokuGrid.empty, 0⟩⟩

/-- `Chromosome::Chromosome(const SudokuGrid&)`. -/
def Chromosome.ofPuzzle (initial_puzzle : SudokuGrid) : Chromosome :=
  ⟨initial_puzzle, 0⟩

/-- `Chromosome::fitness` (returns the cache). -/
def Chromosome.fitness (c : Chromosome) : Nat :=
  c.cached_fitness

/-- `Chromosome::recalculate_fitness`. -/
def Chromosome.recalculate_fitness (c : Chromosome) : Chromosome :=
  { c with cached_fitness := c.grid.get_total_score }

/-- `Chromosome::is_solution`: cached fitness equals `MAX_SCORE`. -/
def Chromosome.is_solution (c : Chromosome) : Bool :=
  c.fitness == 162

/-- The non-zero values already present in sub-block `b` — the denotation
of the `present` bitset that `Chromosome::fill_subblock_random` builds by
scanning the block's cells. -/
def present_digits (g : SudokuGrid) (b : Fin 9) : Finset Nat :=
  (((subblockCells b).map fun p => g.grid p.1 p.2).filter (· ≠ 0)).toFinset

/-- The `missing` vector of `Chromosome::fill_subblock_random`: the digits
`d = 1..9`, in increasing order, with `present[d]` unset. -/
def missing_digits (g : SudokuGrid) (b : Fin 9) : List Nat :=
  ((List.range 9).map (· + 1)).filter fun d => d ∉ present_digits g b

/-- The placement loop of `Chromosome::fill_subblock_random`: walk the
block's cells in row-major order and write the next pending value into
each empty cell (`missing[idx++]`).  An exhausted value list yields 0 —
the corresponding out-of-range `missing[idx]` access is unreachable in
the source, and below the placement is only used with enough values. -/
def fillCells : SudokuGrid → List (Fin 9 × Fin 9) → List Nat → SudokuGrid
  | g, [], _ => g
  | g, p :: rest, vals =>
    if g.grid p.1 p.2 = 0 then
      fillCells (g.set p.1 p.2 (vals.headD 0)) rest vals.tail
    else
      fillCells g rest vals

/-- `Chromosome::fill_subblock_random`, with the shuffled missing-digit
vector (the result of `rng().shuffle(missing)`) passed in as `shuffled`. -/
def Chromosome.fill_subblock_random (c : Chromosome) (b : Fin 9)
    (shuffled : List Nat) : Chromosome :=
  { c with grid := fillCells c.grid (subblockCells b) shuffled }

/-- The random initializer `Chromosome::initialize_random` (the name is
shortened here): fill every sub-block in order 0..8, then recalculate the
fitness.  `shuffles b` stands for the shuffled missing-digit vector the
generator produces for block `b`. -/
def Chromosome.init_random (c : Chromosome) (shuffles : Fin 9 → List Nat) : Chromosome :=
  (((List.finRange 9).foldl (fun ch b => ch.fill_subblock_random b (shuffles b)) c)).recalculate_fitness

/-- `RandomGenerator::two_distinct_indices`, with the two raw
`rand_int` outcomes (`i ∈ [0, maxIndex]`, `j ∈ [0, maxIndex-1]`) passed in. -/
def two_distinct_indices (iRaw jRaw : Nat) : Nat × Nat :=
  (iRaw, if jRaw ≥ iRaw then jRaw + 1 else jRaw)

/-- `crossover` (`GeneticOperations.cpp`): child1 starts as a copy of
parent1 and adopts parent2's row band whenever parent2's band score is
strictly greater; child2 also starts as a copy of parent1 and every column
stack is copied from parent2 on strict improvement and from parent1
otherwise; both children's fitness is then recalculated. -/
def crossover (parent1 parent2 : Chromosome) : Chromosome × Chromosome :=
  let child1 : Chromosome := parent1
  let child2 : Chromosome := parent1
  let child1g := (List.finRange 3).foldl (fun g band =>
      if parent2.grid.get_row_band_score band > parent1.grid.get_row_band_score band then
        g.copy_row_band_from parent2.grid band
      else g) child1.grid
  let child2g := (List.finRange 3).foldl (fun g stack =>
      if parent2.grid.get_column_stack_score stack > parent1.grid.get_column_stack_score stack then
        g.copy_column_stack_from parent2.grid stack
      else g.copy_column_stack_from parent1.grid stack) child2.grid
  (Chromosome.recalculate_fitness { child1 with grid := child1g },
   Chromosome.recalculate_fitness { child2 with grid := child2g })

/-- `mutate_subblock`: collect the block's non-fixed positions; fewer than
2 is a no-op; otherwise swap the values of the two positions selected by
`two_distinct_indices(positions.size() - 1)`.  `iRaw`, `jRaw` are the raw
`rand_int` outcomes used by that call. -/
def mutate_subblock (chrom : Chromosome) (subblock_index : Fin 9)
    (iRaw jRaw : Nat) : Chromosome :=
  let positions := chrom.grid.get_subblock_non_fixed_positions subblock_index
  if positions.length < 2 then
    chrom
  else
    let idx := two_distinct_indices iRaw jRaw
    let p1 := positions.getD idx.1 (0, 0)
    let p2 := positions.getD idx.2 (0, 0)
    let temp := chrom.grid.get p1.1 p1.2
    let g1 := chrom.grid.set p1.1 p1.2 (chrom.grid.get p2.1 p2.2)
    { chrom with grid := g1.set p2.1 p2.2 temp }

/-- `mutate`: for each block `b = 0..8` in order, if the drawn double
`rolls b` is `< mutation_rate` then `mutate_subblock` is applied and the
`mutated` flag set; the fitness is recalculated at the end only if the
flag was set.  `raws b` are the two raw index draws used for block `b`. -/
def mutate (chrom : Chromosome) (mutation_rate : ℚ) (rolls : Fin 9 → ℚ)
    (raws : Fin 9 → Nat × Nat) : Chromosome :=
  let step := (List.finRange 9).foldl
    (fun (acc : Chromosome × Bool) b =>
      if rolls b < mutation_rate then
        (mutate_subblock acc.1 b (raws b).1 (raws b).2, true)
      else acc)
    (chrom, false)
  if step.2 then step.1.recalculate_fitness else step.1

/-- One candidate of `local_search`: copy the parent, mutate the drawn
sub-block, recalculate fitness. -/
def ls_candidate (parent : Chromosome) (d : Fin 9 × Nat × Nat) : Chromosome :=
  (mutate_subblock parent d.1 d.2.1 d.2.2).recalculate_fitness

/-- The loop of `local_search`, carrying `best` and `best_fitness`:
a candidate replaces the incumbent only on strictly greater fitness. -/
def local_search_go (parent : Chromosome) :
    List (Fin 9 × Nat × Nat) → Chromosome → Nat → Chromosome
  | [], best, _ => best
  | d :: rest, best, best_fitness =>
    let candidate := ls_candidate parent d
    if candidate.fitness > best_fitness then
      local_search_go parent rest candidate candidate.fitness
    else
      local_search_go parent rest best best_fitness

/-- `local_search`: `draws` carries, for each of the `num_candidates`
iterations, the drawn sub-block index and the two raw index draws of its
`mutate_subblock` call. -/
def local_search (parent : Chromosome) (draws : List (Fin 9 × Nat × Nat)) : Chromosome :=
  local_search_go parent draws parent parent.fitness

/-- `Population::get_best` (`std::max_element` with the fitness
comparator: the first maximal element is kept); `none` models the
empty-population exception. -/
def get_best? (pop : List Chromosome) : Option Chromosome :=
  match pop with
  | [] => none
  | c :: rest => some (rest.foldl (fun best x => if best.fitness < x.fitness then x else best) c)

/-- `Population::best_fitness`: 0 on an empty population, otherwise the
best individual's fitness. -/
def best_fitness (pop : List Chromosome) : Nat :=
  (get_best? pop).elim 0 Chromosome.fitness

/-- `Population::has_solution`. -/
def has_solution (pop : List Chromosome) : Bool :=
  pop.any Chromosome.is_solution

/-- `Population::get_solution`: the first solved member, if any. -/
def get_solution? (pop : List Chromosome) : Option Chromosome :=
  pop.find? Chromosome.is_solution

/-- `RandomGenerator::sample_indices(n, k)`: shuffle `[0, .., n-1]` and
keep the first `k` entries.  `perm` stands for the shuffled index vector
(a permutation of `range n`). -/
def sample_indices (k : Nat) (perm : List Nat) : List Nat :=
  perm.take k

/-- Fitness of the member at index `i` (`individuals_[i].fitness()`). -/
def fitAt (pop : List Chromosome) (i : Nat) : Nat :=
  (pop.getD i default).fitness

/-- The scan of `Population::tournament_select`: start from the first
drawn index and replace the incumbent only on strictly greater fitness
(first maximal index wins). -/
def scan_best_idx (pop : List Chromosome) : List Nat → Nat → Nat
  | [], best => best
  | idx :: rest, best =>
    if fitAt pop idx > fitAt pop best then scan_best_idx pop rest idx
    else scan_best_idx pop rest best

/-- `Population::tournament_select`: clamp the tournament size to
`[1, size]`, draw that many distinct indices (`sample_indices` on the
shuffled vector `perm`), scan for the fittest.  `none` models the
empty-population exception. -/
def tournament_select (pop : List Chromosome) (tournament_size : Nat)
    (perm : List Nat) : Option Chromosome :=
  match pop with
  | [] => none
  | _ :: _ =>
    let k := max (min tournament_size pop.length) 1
    let indices := sample_indices k perm
    let best_idx := scan_best_idx pop indices (indices.headD 0)
    some (pop.getD best_idx default)

/-- `Solver::run_generation`: seed the new generation with a copy of the
best individual when elitism is on, then fill it with offspring until it
reaches the population size, and replace the population.  `offspring`
stands for the stream of children the selection → crossover → mutation →
local-search pipeline produces (each child an outcome of the shared
random source); the `while` loop consumes it until the buffer is full. -/
def run_generation (elitism : Bool) (pop : List Chromosome)
    (offspring : List Chromosome) : List Chromosome :=
  let seed : List Chromosome := if elitism then (get_best? pop).elim [] (fun b => [b]) else []
  seed ++ offspring.take (pop.length - seed.length)

/-- The populations a solver run visits: `popAt 0` is the initial
population, and generation `g ≥ 1` replaces `popAt (g-1)` using the
offspring stream `offs g`. -/
def popAt (elitism : Bool) (offs : Nat → List Chromosome)
    (pop0 : List Chromosome) : Nat → List Chromosome
  | 0 => pop0
  | g + 1 => run_generation elitism (popAt elitism offs pop0 g) (offs (g + 1))

/-- `SolverResult` (without the wall-clock field, which the claims do not
touch).  `best_individual` defaults to an empty chromosome, as the C++
default-constructed member does. -/
structure SolverResult where
  solved : Bool
  generations : Nat
  best_fitness : Nat
  best_individual : Chromosome
deriving DecidableEq

/-- The `for gen in 1..max_generations` loop of `Solver::solve`, with the
remaining iteration count as fuel (`fuel = max_generations - gen + 1`):
evolve one generation; if a solution appeared, report it at the current
generation index; once the budget is exhausted report the best of the
final population. -/
def solve_iter (elitism : Bool) (offs : Nat → List Chromosome)
    (max_generations : Nat) :
    Nat → Nat → List Chromosome → SolverResult
  | 0, _, pop =>
    { solved := false, generations := max_generations,
      best_fitness := best_fitness pop,
      best_individual := (get_best? pop).getD default }
  | fuel + 1, gen, pop =>
    let pop' := run_generation elitism pop (offs gen)
    if has_solution pop' then
      { solved := true, generations := gen, best_fitness := 162,
        best_individual := (get_solution? pop').getD default }
    else
      solve_iter elitism offs max_generations fuel (gen + 1) pop'

/-- `Solver::solve`: if the initial population already contains a
solution, report it at generation 0; otherwise run the generation loop.
`pop0` stands for the randomly initialized `Population(puzzle, size)`,
and `offs` for the per-generation offspring streams (see
`run_generation`). -/
def solve (elitism : Bool) (offs : Nat → List Chromosome)
    (max_generations : Nat) (pop0 : List Chromosome) : SolverResult :=
  if has_solution pop0 then
    { solved := true, generations := 0, best_fitness := 162,
      best_individual := (get_solution? pop0).getD default }
  else
    solve_iter elitism offs max_generations max_generations 1 pop0

/-- A line (row or column) "contains 9 distinct digits": its entries are
pairwise distinct and all lie in 1..9. -/
def line_distinct (vals : List Nat) : Prop :=
  vals.Nodup ∧ ∀ v ∈ vals, 1 ≤ v ∧ v ≤ 9

instance (vals : List Nat) : Decidable (line_distinct vals) := by
  unfold line_distinct; infer_instance

/-- The row band (0, 1 or 2) a row belongs to. -/
def row_band_of (r : Fin 9) : Fin 3 := ⟨r.val / 3, by omega⟩

/-- The column stack (0, 1 or 2) a column belongs to. -/
def col_stack_of (c : Fin 9) : Fin 3 := ⟨c.val / 3, by omega⟩

/-- The digits 1..9 in order. -/
def digits19 : List Nat := (List.range 9).map (· + 1)

/-- The nine values of sub-block `b`, in row-major cell order. -/
def blockValues (g : SudokuGrid) (b : Fin 9) : List Nat :=
  (subblockCells b).map fun p => g.grid p.1 p.2

/-- Sub-block `b` contains each digit 1-9 exactly once. -/
def blockOk (g : SudokuGrid) (b : Fin 9) : Prop :=
  (blockValues g b).Perm digits19

instance (g : SudokuGrid) (b : Fin 9) : Decidable (blockOk g b) := by
  unfold blockOk; infer_instance

/-- Every one of the 9 sub-blocks contains each digit 1-9 exactly once. -/
def blocksOk (g : SudokuGrid) : Prop :=
  ∀ b : Fin 9, blockOk g b

instance (g : SudokuGrid) : Decidable (blocksOk g) := by
  unfold blocksOk; infer_instance

/-- The range guarantee `rand_int` gives for the two raw draws of a
`mutate_subblock` call on block `b` of chromosome `c`. -/
def raws_ok (c : Chromosome) (b : Fin 9) (iRaw jRaw : Nat) : Prop :=
  2 ≤ (c.grid.get_subblock_non_fixed_positions b).length →
    iRaw ≤ (c.grid.get_subblock_non_fixed_positions b).length - 1 ∧
    jRaw ≤ (c.grid.get_subblock_non_fixed_positions b).length - 2

/-- The chromosomes reachable from `c0` by any sequence of applications
of the four genetic operators.  Crossover may pair the current chromosome
with any other invariant-satisfying chromosome on either side; the raw
`rand_int` draws of every sub-block mutation carry the ranges the
generator guarantees (`raws_ok`). -/
inductive GAReach (c0 : Chromosome) : Chromosome → Prop
  | refl : GAReach c0 c0
  | cross_fst {c : Chromosome} (other : Chromosome) :
      GAReach c0 c → blocksOk other.grid → GAReach c0 (crossover c other).1
  | cross_snd {c : Chromosome} (other : Chromosome) :
      GAReach c0 c → blocksOk other.grid → GAReach c0 (crossover c other).2
  | cross_fst_of {c : Chromosome} (other : Chromosome) :
      GAReach c0 c → blocksOk other.grid → GAReach c0 (crossover other c).1
  | cross_snd_of {c : Chromosome} (other : Chromosome) :
      GAReach c0 c → blocksOk other.grid → GAReach c0 (crossover other c).2
  | step_msub {c : Chromosome} (b : Fin 9) (iRaw jRaw : Nat) : GAReach c0 c →
      raws_ok c b iRaw jRaw → GAReach c0 (mutate_subblock c b iRaw jRaw)
  | step_mut {c : Chromosome} (rate : ℚ) (rolls : Fin 9 → ℚ)
      (raws : Fin 9 → Nat × Nat) : GAReach c0 c →
      (∀ b : Fin 9, raws_ok c b (raws b).1 (raws b).2) →
      GAReach c0 (mutate c rate rolls raws)
  | step_ls {c : Chromosome} (draws : List (Fin 9 × Nat × Nat)) : GAReach c0 c →
      (∀ d ∈ draws, raws_ok c d.1 d.2.1 d.2.2) →
      GAReach c0 (local_search c draws)

/-- A chromosome used to instantiate the randomized operators in the
witness theorems: the empty puzzle, so every sub-block has 9 free cells. -/
def demoChromosome : Chromosome :=
  Chromosome.ofPuzzle SudokuGrid.empty

/-- A chromosome whose cached fitness is the maximal score, used to
witness the solved-at-generation-0 branch. -/
def solvedChromosome : Chromosome :=
  ⟨SudokuGrid.empty, 162⟩

/-- A puzzle string whose two givens collide inside sub-block 0
(two 1s in the first row). -/
def dupPuzzle : SudokuGrid :=
  ((SudokuGrid.ofString (String.toList
    "110000000000000000000000000000000000000000000000000000000000000000000000000000000")).toOption).getD
    SudokuGrid.empty

/-- An identity shuffle outcome: the missing digits in their natural
order, a legal result of `std::shuffle`. -/
def dupShuffles : Fin 9 → List Nat := fun b => missing_digits dupPuzzle b

/-! ### Scoring lemmas (claim C4) -/

lemma count_unique_go_eq (l : List Nat) (s : Finset Nat) :
    count_unique_go l s = ((l.toFinset ∩ Finset.Icc 1 9) \ s).card := by
  induction l generalizing s with
  | nil => simp [count_unique_go]
  | cons v rest ih =>
    by_cases hv : 1 ≤ v ∧ v ≤ 9 ∧ v ∉ s
    · rw [count_unique_go, if_pos hv, ih]
      have hvIcc : v ∈ Finset.Icc 1 9 := Finset.mem_Icc.mpr ⟨hv.1, hv.2.1⟩
      rw [List.toFinset_cons, Finset.insert_inter_of_mem hvIcc,
        Finset.sdiff_insert, Finset.insert_sdiff_of_not_mem _ hv.2.2]
      have hrw : insert v ((rest.toFinset ∩ Finset.Icc 1 9) \ s)
          = insert v (((rest.toFinset ∩ Finset.Icc 1 9) \ s).erase v) := by
        ext x
        by_cases hx : x = v <;> simp [hx]
      rw [hrw, Finset.card_insert_of_not_mem (Finset.not_mem_erase _ _)]
    · rw [count_unique_go, if_neg hv, ih]
      congr 1
      rw [List.toFinset_cons]
      push_neg at hv
      by_cases hvIcc : v ∈ Finset.Icc 1 9
      · have hvs : v ∈ s := by
          rcases Finset.mem_Icc.mp hvIcc with ⟨h1, h9⟩
          exact hv h1 h9
        rw [Finset.insert_inter_of_mem hvIcc, Finset.insert_sdiff_of_mem _ hvs]
      · rw [Finset.insert_inter_of_not_mem hvIcc]

lemma count_unique_eq (l : List Nat) :
    count_unique l = (l.toFinset ∩ Finset.Icc 1 9).card := by
  rw [count_unique, count_unique_go_eq, Finset.sdiff_empty]

lemma count_unique_le_nine (l : List Nat) : count_unique l ≤ 9 := by
  rw [count_unique_eq]
  calc (l.toFinset ∩ Finset.Icc 1 9).card
      ≤ (Finset.Icc 1 9 : Finset Nat).card :=
        Finset.card_le_card Finset.inter_subset_right
    _ = 9 := by rw [Nat.card_Icc]

lemma nodup_of_toFinset_card_eq_length {l : List Nat}
    (h : l.toFinset.card = l.length) : l.Nodup := by
  rw [List.card_toFinset] at h
  exact List.dedup_eq_self.mp ((List.dedup_sublist l).eq_of_length h)

lemma count_unique_eq_nine_iff {l : List Nat} (hlen : l.length = 9) :
    count_unique l = 9 ↔ line_distinct l := by
  rw [count_unique_eq]
  constructor
  · intro h
    have hsub : l.toFinset ∩ Finset.Icc 1 9 ⊆ l.toFinset := Finset.inter_subset_left
    have hcard : l.toFinset.card ≤ 9 := by
      have := List.toFinset_card_le (l := l)
      omega
    have heq : l.toFinset ∩ Finset.Icc 1 9 = l.toFinset :=
      Finset.eq_of_subset_of_card_le hsub (by omega)
    have hc2 : l.toFinset.card = 9 := by rw [← heq]; exact h
    have hnodup : l.Nodup := nodup_of_toFinset_card_eq_length (by omega)
    refine ⟨hnodup, fun v hv => ?_⟩
    have hmem : v ∈ l.toFinset ∩ Finset.Icc 1 9 := by
      rw [heq]; exact List.mem_toFinset.mpr hv
    exact Finset.mem_Icc.mp (Finset.mem_of_mem_inter_right hmem)
  · rintro ⟨hnodup, hmem⟩
    have heq : l.toFinset ∩ Finset.Icc 1 9 = l.toFinset := by
      refine Finset.inter_eq_left.mpr fun v hv => ?_
      exact Finset.mem_Icc.mpr (hmem v (List.mem_toFinset.mp hv))
    rw [heq, List.toFinset_card_of_nodup hnodup, hlen]

lemma row_values_length (g : SudokuGrid) (i : Fin 9) :
    (g.row_values i).length = 9 := by
  simp [SudokuGrid.row_values]

lemma col_values_length (g : SudokuGrid) (i : Fin 9) :
    (g.col_values i).length = 9 := by
  simp [SudokuGrid.col_values]

lemma sum_eq_mul_iff {n : ℕ} (f : Fin n → ℕ) (c : ℕ) (h : ∀ i, f i ≤ c) :
    (∑ i, f i) = n * c ↔ ∀ i, f i = c := by
  constructor
  · intro hs i
    by_contra hne
    have hlt : f i < c := lt_of_le_of_ne (h i) hne
    have hstrict : ∑ j, f j < ∑ _j : Fin n, c :=
      Finset.sum_lt_sum (fun j _ => h j) ⟨i, Finset.mem_univ i, hlt⟩
    rw [Finset.sum_const, Finset.card_univ, Fintype.card_fin, smul_eq_mul] at hstrict
    omega
  · intro hall
    simp [hall, Finset.sum_const, Finset.card_univ, mul_comm]

lemma get_total_score_le (g : SudokuGrid) : g.get_total_score ≤ 162 := by
  have h : ∀ i : Fin 9, g.get_row_score i + g.get_column_score i ≤ 18 := fun i =>
    Nat.add_le_add (count_unique_le_nine _) (count_unique_le_nine _)
  calc g.get_total_score ≤ ∑ _i : Fin 9, 18 := Finset.sum_le_sum fun i _ => h i
    _ = 162 := by simp

lemma get_total_score_eq_top_iff (g : SudokuGrid) :
    g.get_total_score = 162 ↔
      ∀ i : Fin 9, g.get_row_score i = 9 ∧ g.get_column_score i = 9 := by
  have h : ∀ i : Fin 9, g.get_row_score i + g.get_column_score i ≤ 18 := fun i =>
    Nat.add_le_add (count_unique_le_nine _) (count_unique_le_nine _)
  rw [SudokuGrid.get_total_score, show (162 : ℕ) = 9 * 18 by norm_num,
    sum_eq_mul_iff _ 18 h]
  constructor
  · intro hall i
    have h18 := hall i
    have h1 := count_unique_le_nine (g.row_values i)
    have h2 := count_unique_le_nine (g.col_values i)
    unfold SudokuGrid.get_row_score SudokuGrid.get_column_score at *
    omega
  · intro hall i
    rw [(hall i).1, (hall i).2]

/-- C4: for every grid with cell values in [0,9], the total score lies in
[0,162]; it equals 162 exactly when every row and every column holds 9
distinct digits of 1..9; `is_solved()` holds exactly when the total score
is 162; and a chromosome over the grid with a recalculated fitness cache
satisfies `is_solution()` exactly when the total score is 162. -/
theorem C4_total_score_range_and_solved (g : SudokuGrid)
    (hvals : ∀ r c, g.grid r c ≤ 9) :
    0 ≤ g.get_total_score ∧ g.get_total_score ≤ 162 ∧
    (g.get_total_score = 162 ↔
      ∀ i : Fin 9, line_distinct (g.row_values i) ∧ line_distinct (g.col_values i)) ∧
    (g.is_solved = true ↔ g.get_total_score = 162) ∧
    (((Chromosome.ofPuzzle g).recalculate_fitness).is_solution = true ↔
      g.get_total_score = 162) := by
  refine ⟨Nat.zero_le _, get_total_score_le g, ?_, ?_, ?_⟩
  · rw [get_total_score_eq_top_iff]
    constructor
    · intro hall i
      exact ⟨(count_unique_eq_nine_iff (row_values_length g i)).mp (hall i).1,
        (count_unique_eq_nine_iff (col_values_length g i)).mp (hall i).2⟩
    · intro hall i
      exact ⟨(count_unique_eq_nine_iff (row_values_length g i)).mpr (hall i).1,
        (count_unique_eq_nine_iff (col_values_length g i)).mpr (hall i).2⟩
  · simp [SudokuGrid.is_solved]
  · simp [Chromosome.is_solution, Chromosome.ofPuzzle, Chromosome.recalculate_fitness,
      Chromosome.fitness]

/-- Witness for C4 at the empty grid. -/
theorem C4_witness :
    (∀ r c, (SudokuGrid.empty).grid r c ≤ 9) ∧
    (0 ≤ SudokuGrid.empty.get_total_score ∧ SudokuGrid.empty.get_total_score ≤ 162 ∧
    (SudokuGrid.empty.get_total_score = 162 ↔
      ∀ i : Fin 9, line_distinct (SudokuGrid.empty.row_values i) ∧
        line_distinct (SudokuGrid.empty.col_values i)) ∧
    (SudokuGrid.empty.is_solved = true ↔ SudokuGrid.empty.get_total_score = 162) ∧
    (((Chromosome.ofPuzzle SudokuGrid.empty).recalculate_fitness).is_solution = true ↔
      SudokuGrid.empty.get_total_score = 162)) :=
  ⟨by decide, C4_total_score_range_and_solved SudokuGrid.empty (by decide)⟩

/-! ### Grid construction from a puzzle string (claim C7) -/

lemma getD_take_eq {s t : List Char} {i : Nat} (hi : i < 81)
    (h : s.take 81 = t.take 81) : s.getD i ' ' = t.getD i ' ' := by
  have h1 : (s.take 81).getD i ' ' = (t.take 81).getD i ' ' := by rw [h]
  simpa [List.getD, List.getElem?_take, hi] using h1

/-- C7: construction from a puzzle string fails with the invalid-input
error exactly when fewer than 81 characters are supplied; on success, cell
(r, c) is read from character 9r+c: a digit character gives a fixed cell
holding that digit, anything else gives an empty (0) non-fixed cell; and
two strings agreeing on their first 81 characters construct the same grid
(later characters have no effect). -/
theorem C7_ofString_spec (s : List Char) :
    (s.length < 81 →
      SudokuGrid.ofString s =
        Except.error "Puzzle string must have at least 81 characters") ∧
    (81 ≤ s.length → ∃ g, SudokuGrid.ofString s = Except.ok g ∧
      ∀ r c : Fin 9,
        (('1' ≤ s.getD (9 * r.val + c.val) ' ' ∧ s.getD (9 * r.val + c.val) ' ' ≤ '9') →
          g.grid r c = (s.getD (9 * r.val + c.val) ' ').toNat - '0'.toNat ∧
          g.fixed r c = true) ∧
        (¬('1' ≤ s.getD (9 * r.val + c.val) ' ' ∧ s.getD (9 * r.val + c.val) ' ' ≤ '9') →
          g.grid r c = 0 ∧ g.fixed r c = false)) ∧
    (∀ t : List Char, 81 ≤ s.length → s.take 81 = t.take 81 →
      SudokuGrid.ofString s = SudokuGrid.ofString t) := by
  refine ⟨fun hshort => ?_, fun hlong => ?_, fun t hlong htake => ?_⟩
  · rw [SudokuGrid.ofString, if_pos hshort]
  · rw [SudokuGrid.ofString, if_neg (by omega)]
    refine ⟨_, rfl, fun r c => ⟨fun hdig => ?_, fun hnot => ?_⟩⟩
    · constructor
      · simp only [if_pos hdig]
      · simpa using hdig
    · constructor
      · simp only [if_neg hnot]
      · simpa using hnot
  · have htlen : 81 ≤ t.length := by
      have h1 : (s.take 81).length = 81 := by
        rw [List.length_take]; omega
      have h2 : (t.take 81).length = min 81 t.length := List.length_take ..
      rw [htake] at h1; omega
    rw [SudokuGrid.ofString, SudokuGrid.ofString, if_neg (by omega), if_neg (by omega)]
    have hcell : ∀ r c : Fin 9,
        s.getD (9 * r.val + c.val) ' ' = t.getD (9 * r.val + c.val) ' ' := by
      intro r c
      exact getD_take_eq (by omega) htake
    congr 1
    refine congrArg₂ SudokuGrid.mk ?_ ?_ <;> funext r c <;> rw [hcell r c]

/-- Witness for C7: an 80-character string is rejected. -/
theorem C7_witness :
    (List.replicate 80 '.').length < 81 ∧
    SudokuGrid.ofString (List.replicate 80 '.') =
      Except.error "Puzzle string must have at least 81 characters" :=
  ⟨by decide, (C7_ofString_spec (List.replicate 80 '.')).1 (by decide)⟩

/-! ### Crossover (claim C5) -/

lemma band_fold_grid (p1g p2g : SudokuGrid) (cond : Fin 3 → Prop)
    [DecidablePred cond] (r c : Fin 9) :
    (((List.finRange 3).foldl
      (fun g band => if cond band then g.copy_row_band_from p2g band else g) p1g)).grid r c
    = if cond (row_band_of r) then p2g.grid r c else p1g.grid r c := by
  have hfr : (List.finRange 3) = [⟨0, by omega⟩, ⟨1, by omega⟩, ⟨2, by omega⟩] := rfl
  rw [hfr]
  simp only [List.foldl]
  have h3 : r.val / 3 = 0 ∨ r.val / 3 = 1 ∨ r.val / 3 = 2 := by omega
  rcases h3 with hk | hk | hk <;>
    have hb : row_band_of r = ⟨r.val / 3, by omega⟩ := rfl <;>
    rw [hb] <;> split_ifs <;> simp_all [SudokuGrid.copy_row_band_from]

lemma band_fold_fixed (p1g p2g : SudokuGrid) (cond : Fin 3 → Prop)
    [DecidablePred cond] (r c : Fin 9) :
    (((List.finRange 3).foldl
      (fun g band => if cond band then g.copy_row_band_from p2g band else g) p1g)).fixed r c
    = if cond (row_band_of r) then p2g.fixed r c else p1g.fixed r c := by
  have hfr : (List.finRange 3) = [⟨0, by omega⟩, ⟨1, by omega⟩, ⟨2, by omega⟩] := rfl
  rw [hfr]
  simp only [List.foldl]
  have h3 : r.val / 3 = 0 ∨ r.val / 3 = 1 ∨ r.val / 3 = 2 := by omega
  rcases h3 with hk | hk | hk <;>
    have hb : row_band_of r = ⟨r.val / 3, by omega⟩ := rfl <;>
    rw [hb] <;> split_ifs <;> simp_all [SudokuGrid.copy_row_band_from]

lemma stack_step_grid (g p1g p2g : SudokuGrid) (s : Fin 3) (P : Prop)
    [Decidable P] (r c : Fin 9) :
    ((if P then g.copy_column_stack_from p2g s
      else g.copy_column_stack_from p1g s)).grid r c
    = if c.val / 3 = s.val then (if P then p2g.grid r c else p1g.grid r c)
      else g.grid r c := by
  by_cases hP : P <;> simp [hP, SudokuGrid.copy_column_stack_from]

lemma stack_step_fixed (g p1g p2g : SudokuGrid) (s : Fin 3) (P : Prop)
    [Decidable P] (r c : Fin 9) :
    ((if P then g.copy_column_stack_from p2g s
      else g.copy_column_stack_from p1g s)).fixed r c
    = if c.val / 3 = s.val then (if P then p2g.fixed r c else p1g.fixed r c)
      else g.fixed r c := by
  by_cases hP : P <;> simp [hP, SudokuGrid.copy_column_stack_from]

lemma stack_fold_grid (start p1g p2g : SudokuGrid) (cond : Fin 3 → Prop)
    [DecidablePred cond] (r c : Fin 9) :
    (((List.finRange 3).foldl
      (fun g stack => if cond stack then g.copy_column_stack_from p2g stack
        else g.copy_column_stack_from p1g stack) start)).grid r c
    = if cond (col_stack_of c) then p2g.grid r c else p1g.grid r c := by
  have hfr : (List.finRange 3) = [⟨0, by omega⟩, ⟨1, by omega⟩, ⟨2, by omega⟩] := rfl
  rw [hfr]
  simp only [List.foldl]
  rw [stack_step_grid, stack_step_grid, stack_step_grid]
  have h3 : c.val / 3 = 0 ∨ c.val / 3 = 1 ∨ c.val / 3 = 2 := by omega
  rcases h3 with hk | hk | hk <;> simp [col_stack_of, hk]

lemma stack_fold_fixed (start p1g p2g : SudokuGrid) (cond : Fin 3 → Prop)
    [DecidablePred cond] (r c : Fin 9) :
    (((List.finRange 3).foldl
      (fun g stack => if cond stack then g.copy_column_stack_from p2g stack
        else g.copy_column_stack_from p1g stack) start)).fixed r c
    = if cond (col_stack_of c) then p2g.fixed r c else p1g.fixed r c := by
  have hfr : (List.finRange 3) = [⟨0, by omega⟩, ⟨1, by omega⟩, ⟨2, by omega⟩] := rfl
  rw [hfr]
  simp only [List.foldl]
  rw [stack_step_fixed, stack_step_fixed, stack_step_fixed]
  have h3 : c.val / 3 = 0 ∨ c.val / 3 = 1 ∨ c.val / 3 = 2 := by omega
  rcases h3 with hk | hk | hk <;> simp [col_stack_of, hk]

/-- C5: child1 equals parent1 except that each row band is taken from
parent2 exactly when parent2's band score strictly exceeds parent1's
(values and fixed flags alike); child2 is assembled per column stack,
taking parent2's stack exactly on strict improvement and parent1's
otherwise; and both children's cached fitness equals their own grid's
total score on return. -/
theorem C5_crossover_spec (p1 p2 : Chromosome) :
    (∀ r c : Fin 9,
      (crossover p1 p2).1.grid.grid r c =
        (if p2.grid.get_row_band_score (row_band_of r) >
            p1.grid.get_row_band_score (row_band_of r)
         then p2.grid.grid r c else p1.grid.grid r c) ∧
      (crossover p1 p2).1.grid.fixed r c =
        (if p2.grid.get_row_band_score (row_band_of r) >
            p1.grid.get_row_band_score (row_band_of r)
         then p2.grid.fixed r c else p1.grid.fixed r c)) ∧
    (∀ r c : Fin 9,
      (crossover p1 p2).2.grid.grid r c =
        (if p2.grid.get_column_stack_score (col_stack_of c) >
            p1.grid.get_column_stack_score (col_stack_of c)
         then p2.grid.grid r c else p1.grid.grid r c) ∧
      (crossover p1 p2).2.grid.fixed r c =
        (if p2.grid.get_column_stack_score (col_stack_of c) >
            p1.grid.get_column_stack_score (col_stack_of c)
         then p2.grid.fixed r c else p1.grid.fixed r c)) ∧
    (crossover p1 p2).1.cached_fitness = (crossover p1 p2).1.grid.get_total_score ∧
    (crossover p1 p2).2.cached_fitness = (crossover p1 p2).2.grid.get_total_score := by
  refine ⟨fun r c => ⟨?_, ?_⟩, fun r c => ⟨?_, ?_⟩, rfl, rfl⟩
  · exact band_fold_grid p1.grid p2.grid
      (fun band => p2.grid.get_row_band_score band > p1.grid.get_row_band_score band) r c
  · exact band_fold_fixed p1.grid p2.grid
      (fun band => p2.grid.get_row_band_score band > p1.grid.get_row_band_score band) r c
  · exact stack_fold_grid p1.grid p1.grid p2.grid
      (fun stack => p2.grid.get_column_stack_score stack > p1.grid.get_column_stack_score stack) r c
  · exact stack_fold_fixed p1.grid p1.grid p2.grid
      (fun stack => p2.grid.get_column_stack_score stack > p1.grid.get_column_stack_score stack) r c

/-! ### Sub-block mutation: frame and swap lemmas (claims C10, C6, C1) -/

lemma subblockCells_nodup : ∀ b : Fin 9, (subblockCells b).Nodup := by decide

lemma mem_allCells : ∀ p : Fin 9 × Fin 9, p ∈ allCells := by decide

lemma mem_subblockCells {b : Fin 9} {p : Fin 9 × Fin 9} :
    p ∈ subblockCells b ↔ inSubblock b p := by
  rw [subblockCells, List.mem_filter]
  simp [mem_allCells]

lemma positions_nodup (g : SudokuGrid) (b : Fin 9) :
    (g.get_subblock_non_fixed_positions b).Nodup :=
  (subblockCells_nodup b).filter _

lemma mem_positions {g : SudokuGrid} {b : Fin 9} {p : Fin 9 × Fin 9} :
    p ∈ g.get_subblock_non_fixed_positions b ↔
      inSubblock b p ∧ g.fixed p.1 p.2 = false := by
  rw [SudokuGrid.get_subblock_non_fixed_positions, List.mem_filter, mem_subblockCells]
  simp

lemma two_distinct_indices_spec {iRaw jRaw n : Nat} (hn : 2 ≤ n)
    (hi : iRaw ≤ n - 1) (hj : jRaw ≤ n - 2) :
    (two_distinct_indices iRaw jRaw).1 ≠ (two_distinct_indices iRaw jRaw).2 ∧
    (two_distinct_indices iRaw jRaw).1 < n ∧
    (two_distinct_indices iRaw jRaw).2 < n := by
  unfold two_distinct_indices
  by_cases h : jRaw ≥ iRaw <;> simp [h] <;> omega

lemma mutate_subblock_frame_spec (c : Chromosome) (b : Fin 9) (iRaw jRaw : Nat)
    (hi : 2 ≤ (c.grid.get_subblock_non_fixed_positions b).length →
      iRaw ≤ (c.grid.get_subblock_non_fixed_positions b).length - 1)
    (hj : 2 ≤ (c.grid.get_subblock_non_fixed_positions b).length →
      jRaw ≤ (c.grid.get_subblock_non_fixed_positions b).length - 2) :
    (mutate_subblock c b iRaw jRaw).grid.fixed = c.grid.fixed ∧
    (mutate_subblock c b iRaw jRaw).cached_fitness = c.cached_fitness ∧
    ((c.grid.get_subblock_non_fixed_positions b).length < 2 →
      mutate_subblock c b iRaw jRaw = c) ∧
    (2 ≤ (c.grid.get_subblock_non_fixed_positions b).length →
      (two_distinct_indices iRaw jRaw).1 ≠ (two_distinct_indices iRaw jRaw).2 ∧
      (two_distinct_indices iRaw jRaw).1 <
        (c.grid.get_subblock_non_fixed_positions b).length ∧
      (two_distinct_indices iRaw jRaw).2 <
        (c.grid.get_subblock_non_fixed_positions b).length ∧
      (let positions := c.grid.get_subblock_non_fixed_positions b
       let p1 := positions.getD (two_distinct_indices iRaw jRaw).1 (0, 0)
       let p2 := positions.getD (two_distinct_indices iRaw jRaw).2 (0, 0)
       p1 ≠ p2 ∧ inSubblock b p1 ∧ inSubblock b p2 ∧
       c.grid.fixed p1.1 p1.2 = false ∧ c.grid.fixed p2.1 p2.2 = false ∧
       (mutate_subblock c b iRaw jRaw).grid.grid p1.1 p1.2 = c.grid.grid p2.1 p2.2 ∧
       (mutate_subblock c b iRaw jRaw).grid.grid p2.1 p2.2 = c.grid.grid p1.1 p1.2 ∧
       ∀ q : Fin 9 × Fin 9, q ≠ p1 → q ≠ p2 →
         (mutate_subblock c b iRaw jRaw).grid.grid q.1 q.2 = c.grid.grid q.1 q.2)) := by
  by_cases hlen2 : (c.grid.get_subblock_non_fixed_positions b).length < 2
  · have hid : mutate_subblock c b iRaw jRaw = c := by
      simp only [mutate_subblock, if_pos hlen2]
    rw [hid]
    exact ⟨rfl, rfl, fun _ => rfl, fun h => absurd h (by omega)⟩
  · push_neg at hlen2
    obtain ⟨hne, hlt1, hlt2⟩ := two_distinct_indices_spec hlen2 (hi hlen2) (hj hlen2)
    set positions := c.grid.get_subblock_non_fixed_positions b with hposdef
    set i1 := (two_distinct_indices iRaw jRaw).1 with hi1def
    set i2 := (two_distinct_indices iRaw jRaw).2 with hi2def
    set p1 := positions.getD i1 (0, 0) with hp1def
    set p2 := positions.getD i2 (0, 0) with hp2def
    have hp1mem : p1 ∈ positions := by
      rw [hp1def, List.getD_eq_getElem positions (0, 0) hlt1]
      exact List.getElem_mem hlt1
    have hp2mem : p2 ∈ positions := by
      rw [hp2def, List.getD_eq_getElem positions (0, 0) hlt2]
      exact List.getElem_mem hlt2
    have hpne : p1 ≠ p2 := by
      rw [hp1def, hp2def, List.getD_eq_getElem positions (0, 0) hlt1,
        List.getD_eq_getElem positions (0, 0) hlt2]
      intro he
      exact hne ((positions_nodup c.grid b).getElem_inj_iff.mp he)
    obtain ⟨hblk1, hfix1⟩ := mem_positions.mp hp1mem
    obtain ⟨hblk2, hfix2⟩ := mem_positions.mp hp2mem
    have hgrid : (mutate_subblock c b iRaw jRaw).grid =
        SudokuGrid.set (SudokuGrid.set c.grid p1.1 p1.2 (c.grid.get p2.1 p2.2))
          p2.1 p2.2 (c.grid.get p1.1 p1.2) := by
      simp only [mutate_subblock, if_neg (by omega : ¬ positions.length < 2)]
    have hfixed : (mutate_subblock c b iRaw jRaw).grid.fixed = c.grid.fixed := by
      rw [hgrid]; rfl
    have hcache : (mutate_subblock c b iRaw jRaw).cached_fitness = c.cached_fitness := by
      simp only [mutate_subblock, if_neg (by omega : ¬ positions.length < 2)]
    have h12 : ¬(p1.1 = p2.1 ∧ p1.2 = p2.2) := by
      intro ⟨ha, hb2⟩
      exact hpne (Prod.ext ha hb2)
    refine ⟨hfixed, hcache, fun h => absurd h (by omega), fun _ => ⟨hne, hlt1, hlt2, hpne,
      hblk1, hblk2, hfix1, hfix2, ?_, ?_, ?_⟩⟩
    · rw [← hp1def, ← hp2def, hgrid]
      simp [SudokuGrid.set, SudokuGrid.get, h12]
    · rw [← hp1def, ← hp2def, hgrid]
      simp [SudokuGrid.set, SudokuGrid.get]
    · intro q hq1 hq2
      rw [← hp1def] at hq1
      rw [← hp2def] at hq2
      rw [hgrid]
      have hq1' : ¬(q.1 = p1.1 ∧ q.2 = p1.2) := by
        intro ⟨ha, hb2⟩
        exact hq1 (Prod.ext ha hb2)
      have hq2' : ¬(q.1 = p2.1 ∧ q.2 = p2.2) := by
        intro ⟨ha, hb2⟩
        exact hq2 (Prod.ext ha hb2)
      simp [SudokuGrid.set, SudokuGrid.get, hq1', hq2']

/-- C10: `mutate_subblock` keeps the fixed mask and the cached fitness
untouched; with fewer than 2 free positions it is the identity; otherwise
the two selected indices are distinct and within the bounds of the
non-fixed-position list, the two selected cells are distinct non-fixed
cells of the chosen sub-block whose values are exchanged, and every other
cell — in particular every fixed cell and every cell outside the sub-block
— is unchanged.  The hypotheses are the ranges `rand_int` guarantees for
the two raw draws. -/
theorem C10_mutate_subblock_frame (c : Chromosome) (b : Fin 9) (iRaw jRaw : Nat)
    (hi : 2 ≤ (c.grid.get_subblock_non_fixed_positions b).length →
      iRaw ≤ (c.grid.get_subblock_non_fixed_positions b).length - 1)
    (hj : 2 ≤ (c.grid.get_subblock_non_fixed_positions b).length →
      jRaw ≤ (c.grid.get_subblock_non_fixed_positions b).length - 2) :
    (mutate_subblock c b iRaw jRaw).grid.fixed = c.grid.fixed ∧
    (mutate_subblock c b iRaw jRaw).cached_fitness = c.cached_fitness ∧
    ((c.grid.get_subblock_non_fixed_positions b).length < 2 →
      mutate_subblock c b iRaw jRaw = c) ∧
    (2 ≤ (c.grid.get_subblock_non_fixed_positions b).length →
      (two_distinct_indices iRaw jRaw).1 ≠ (two_distinct_indices iRaw jRaw).2 ∧
      (two_distinct_indices iRaw jRaw).1 <
        (c.grid.get_subblock_non_fixed_positions b).length ∧
      (two_distinct_indices iRaw jRaw).2 <
        (c.grid.get_subblock_non_fixed_positions b).length ∧
      (let positions := c.grid.get_subblock_non_fixed_positions b
       let p1 := positions.getD (two_distinct_indices iRaw jRaw).1 (0, 0)
       let p2 := positions.getD (two_distinct_indices iRaw jRaw).2 (0, 0)
       p1 ≠ p2 ∧ inSubblock b p1 ∧ inSubblock b p2 ∧
       c.grid.fixed p1.1 p1.2 = false ∧ c.grid.fixed p2.1 p2.2 = false ∧
       (mutate_subblock c b iRaw jRaw).grid.grid p1.1 p1.2 = c.grid.grid p2.1 p2.2 ∧
       (mutate_subblock c b iRaw jRaw).grid.grid p2.1 p2.2 = c.grid.grid p1.1 p1.2 ∧
       ∀ q : Fin 9 × Fin 9, q ≠ p1 → q ≠ p2 →
         (mutate_subblock c b iRaw jRaw).grid.grid q.1 q.2 = c.grid.grid q.1 q.2)) :=
  mutate_subblock_frame_spec c b iRaw jRaw hi hj

/-- Witness for C10: the fixed mask is unchanged on a concrete call. -/
theorem C10_witness :
    (mutate_subblock demoChromosome 0 0 0).grid.fixed = demoChromosome.grid.fixed :=
  (C10_mutate_subblock_frame demoChromosome 0 0 0 (by decide) (by decide)).1

/-! ### Mutation (claim C6) -/

lemma mutate_fold_characterization (mutation_rate : ℚ) (rolls : Fin 9 → ℚ)
    (raws : Fin 9 → Nat × Nat) :
    ∀ (l : List (Fin 9)) (c : Chromosome) (flag : Bool),
    (l.foldl (fun (acc : Chromosome × Bool) b =>
        if rolls b < mutation_rate then
          (mutate_subblock acc.1 b (raws b).1 (raws b).2, true)
        else acc) (c, flag))
    = ((l.filter fun b => decide (rolls b < mutation_rate)).foldl
        (fun ch b => mutate_subblock ch b (raws b).1 (raws b).2) c,
       flag || !(l.filter fun b => decide (rolls b < mutation_rate)).isEmpty) := by
  intro l
  induction l with
  | nil => intro c flag; simp
  | cons b rest ih =>
    intro c flag
    by_cases hb : rolls b < mutation_rate
    · simp only [List.foldl_cons, if_pos hb, List.filter_cons,
        decide_eq_true hb, ih]
      simp
    · simp only [List.foldl_cons, if_neg hb, List.filter_cons,
        decide_eq_false hb, ih]
      simp

/-- C6: `mutate` decides for each of the 9 sub-blocks independently from
its own drawn double (`rolls b < rate`) whether to apply
`mutate_subblock`, so it equals applying `mutate_subblock` to exactly the
blocks whose roll passed, recalculating the cached fitness once at the
end only if at least one block was selected (the grid and fitness are
completely untouched when none was); `mutate_subblock` on a block with
fewer than 2 non-fixed positions is a no-op leaving grid and fitness
unchanged, and otherwise it exchanges the values of two distinct
non-fixed positions of that block and changes nothing else. -/
theorem C6_mutate_spec (c : Chromosome) (mutation_rate : ℚ) (rolls : Fin 9 → ℚ)
    (raws : Fin 9 → Nat × Nat) (b : Fin 9) (iRaw jRaw : Nat) :
    (mutate c mutation_rate rolls raws =
      (if ((List.finRange 9).filter fun b' => decide (rolls b' < mutation_rate)).isEmpty
       then c
       else (((List.finRange 9).filter fun b' => decide (rolls b' < mutation_rate)).foldl
          (fun ch b' => mutate_subblock ch b' (raws b').1 (raws b').2) c).recalculate_fitness)) ∧
    ((∀ b' : Fin 9, ¬ rolls b' < mutation_rate) → mutate c mutation_rate rolls raws = c) ∧
    ((∃ b' : Fin 9, rolls b' < mutation_rate) →
      (mutate c mutation_rate rolls raws).cached_fitness =
        (mutate c mutation_rate rolls raws).grid.get_total_score) ∧
    ((c.grid.get_subblock_non_fixed_positions b).length < 2 →
      mutate_subblock c b iRaw jRaw = c) ∧
    (2 ≤ (c.grid.get_subblock_non_fixed_positions b).length →
      iRaw ≤ (c.grid.get_subblock_non_fixed_positions b).length - 1 →
      jRaw ≤ (c.grid.get_subblock_non_fixed_positions b).length - 2 →
      ∃ p1 p2 : Fin 9 × Fin 9, p1 ≠ p2 ∧
        p1 ∈ c.grid.get_subblock_non_fixed_positions b ∧
        p2 ∈ c.grid.get_subblock_non_fixed_positions b ∧
        (mutate_subblock c b iRaw jRaw).grid.grid p1.1 p1.2 = c.grid.grid p2.1 p2.2 ∧
        (mutate_subblock c b iRaw jRaw).grid.grid p2.1 p2.2 = c.grid.grid p1.1 p1.2 ∧
        (mutate_subblock c b iRaw jRaw).grid.fixed = c.grid.fixed ∧
        ∀ q : Fin 9 × Fin 9, q ≠ p1 → q ≠ p2 →
          (mutate_subblock c b iRaw jRaw).grid.grid q.1 q.2 = c.grid.grid q.1 q.2) := by
  have hchar : mutate c mutation_rate rolls raws =
      (if ((List.finRange 9).filter fun b' => decide (rolls b' < mutation_rate)).isEmpty
       then c
       else (((List.finRange 9).filter fun b' => decide (rolls b' < mutation_rate)).foldl
          (fun ch b' => mutate_subblock ch b' (raws b').1 (raws b').2) c).recalculate_fitness) := by
    rw [mutate]
    rw [mutate_fold_characterization mutation_rate rolls raws (List.finRange 9) c false]
    by_cases he : ((List.finRange 9).filter fun b' => decide (rolls b' < mutation_rate)).isEmpty
    · rw [if_pos he]
      have : ((List.finRange 9).filter fun b' => decide (rolls b' < mutation_rate)) = [] :=
        List.isEmpty_iff.mp he
      simp [this, he]
    · rw [if_neg he]
      simp [he]
  refine ⟨hchar, fun hnone => ?_, fun hsome => ?_, fun hsmall => ?_, fun hlen hi hj => ?_⟩
  · rw [hchar, if_pos]
    rw [List.isEmpty_iff, List.filter_eq_nil_iff]
    intro b' _
    simpa using hnone b'
  · obtain ⟨b', hb'⟩ := hsome
    have hne : ¬ ((List.finRange 9).filter fun x => decide (rolls x < mutation_rate)).isEmpty := by
      rw [List.isEmpty_iff, List.filter_eq_nil_iff]
      push_neg
      exact ⟨b', List.mem_finRange b', by simpa using hb'⟩
    rw [hchar, if_neg hne]
    rfl
  · simp only [mutate_subblock, if_pos hsmall]
  · obtain ⟨-, -, -, hswap⟩ :=
      mutate_subblock_frame_spec c b iRaw jRaw (fun _ => hi) (fun _ => hj)
    obtain ⟨-, hlt1, hlt2, hpne, hblk1, hblk2, hfix1, hfix2, hv1, hv2, hframe⟩ := hswap hlen
    refine ⟨(c.grid.get_subblock_non_fixed_positions b).getD
        (two_distinct_indices iRaw jRaw).1 (0, 0),
      (c.grid.get_subblock_non_fixed_positions b).getD
        (two_distinct_indices iRaw jRaw).2 (0, 0),
      hpne, ?_, ?_, hv1, hv2,
      (mutate_subblock_frame_spec c b iRaw jRaw (fun _ => hi) (fun _ => hj)).1, hframe⟩
    · exact mem_positions.mpr ⟨hblk1, hfix1⟩
    · exact mem_positions.mpr ⟨hblk2, hfix2⟩

/-- Witness for C6: with every roll at least the rate, a concrete `mutate`
call is the identity. -/
theorem C6_witness :
    mutate demoChromosome (1/2 : ℚ) (fun _ => 1) (fun _ => (0, 0)) = demoChromosome :=
  (C6_mutate_spec demoChromosome (1/2 : ℚ) (fun _ => 1) (fun _ => (0, 0)) 0 0 0).2.1
    (by intro b'; norm_num)

/-! ### Local search (claim C9) -/

lemma local_search_go_spec (parent : Chromosome) :
    ∀ (ds : List (Fin 9 × Nat × Nat)) (best : Chromosome) (bf : Nat),
    bf = best.fitness →
    (local_search_go parent ds best bf).fitness ≥ best.fitness ∧
    ((∀ d ∈ ds, (ls_candidate parent d).fitness ≤ bf) →
      local_search_go parent ds best bf = best) ∧
    (local_search_go parent ds best bf = best ∨
      ((local_search_go parent ds best bf).fitness > bf ∧
        ∃ d ∈ ds, local_search_go parent ds best bf = ls_candidate parent d)) := by
  intro ds
  induction ds with
  | nil =>
    intro best bf hbf
    exact ⟨le_refl _, fun _ => rfl, Or.inl rfl⟩
  | cons d rest ih =>
    intro best bf hbf
    by_cases hacc : (ls_candidate parent d).fitness > bf
    · have hgo : local_search_go parent (d :: rest) best bf =
          local_search_go parent rest (ls_candidate parent d)
            (ls_candidate parent d).fitness := by
        rw [local_search_go, if_pos hacc]
      obtain ⟨ih1, ih2, ih3⟩ := ih (ls_candidate parent d) (ls_candidate parent d).fitness rfl
      rw [hgo]
      refine ⟨?_, fun hall => ?_, ?_⟩
      · omega
      · exact absurd ((hall d (List.mem_cons_self d rest))) (by omega)
      · rcases ih3 with heq | ⟨hgt, d', hd', heqc⟩
        · exact Or.inr ⟨by omega, d, List.mem_cons_self d rest, heq⟩
        · exact Or.inr ⟨by omega, d', List.mem_cons_of_mem d hd', heqc⟩
    · have hgo : local_search_go parent (d :: rest) best bf =
          local_search_go parent rest best bf := by
        rw [local_search_go, if_neg hacc]
      obtain ⟨ih1, ih2, ih3⟩ := ih best bf hbf
      rw [hgo]
      refine ⟨ih1, fun hall => ih2 fun d' hd' => hall d' (List.mem_cons_of_mem d hd'), ?_⟩
      rcases ih3 with heq | ⟨hgt, d', hd', heqc⟩
      · exact Or.inl heq
      · exact Or.inr ⟨hgt, d', List.mem_cons_of_mem d hd', heqc⟩

/-- C9: for a parent whose cached fitness matches its grid's total score,
`local_search` returns a chromosome of fitness at least the parent's; a
candidate replaces the incumbent only on strictly greater fitness, so if
no tried candidate strictly improves on the parent the unmodified parent
is returned; and a result other than the parent is one of the tried
candidates, with strictly greater fitness. -/
theorem C9_local_search_improves (parent : Chromosome)
    (draws : List (Fin 9 × Nat × Nat))
    (hcache : parent.cached_fitness = parent.grid.get_total_score) :
    (local_search parent draws).fitness ≥ parent.fitness ∧
    ((∀ d ∈ draws, (ls_candidate parent d).fitness ≤ parent.fitness) →
      local_search parent draws = parent) ∧
    (local_search parent draws ≠ parent →
      (local_search parent draws).fitness > parent.fitness ∧
      ∃ d ∈ draws, local_search parent draws = ls_candidate parent d) := by
  obtain ⟨h1, h2, h3⟩ := local_search_go_spec parent draws parent parent.fitness rfl
  rw [local_search]
  refine ⟨h1, h2, fun hne => ?_⟩
  rcases h3 with heq | ⟨hgt, d, hd, heqc⟩
  · exact absurd heq hne
  · exact ⟨hgt, d, hd, heqc⟩

/-- Witness for C9 at a concrete parent with an empty draw list. -/
theorem C9_witness :
    demoChromosome.cached_fitness = demoChromosome.grid.get_total_score ∧
    (local_search demoChromosome []).fitness ≥ demoChromosome.fitness :=
  ⟨by decide, (C9_local_search_improves demoChromosome [] (by decide)).1⟩

/-! ### Population best and tournament selection (claims C8, C2, C3) -/

lemma best_fold_spec : ∀ (rest : List Chromosome) (c : Chromosome),
    (rest.foldl (fun best x => if best.fitness < x.fitness then x else best) c = c ∨
     rest.foldl (fun best x => if best.fitness < x.fitness then x else best) c ∈ rest) ∧
    c.fitness ≤ (rest.foldl (fun best x => if best.fitness < x.fitness then x else best) c).fitness ∧
    ∀ x ∈ rest,
      x.fitness ≤ (rest.foldl (fun best x => if best.fitness < x.fitness then x else best) c).fitness := by
  intro rest
  induction rest with
  | nil => intro c; exact ⟨Or.inl rfl, le_refl _, by simp⟩
  | cons x xs ih =>
    intro c
    simp only [List.foldl_cons]
    obtain ⟨ihmem, ihc, ihall⟩ := ih (if c.fitness < x.fitness then x else c)
    have hcle : c.fitness ≤ (if c.fitness < x.fitness then x else c).fitness := by
      split <;> omega
    have hxle : x.fitness ≤ (if c.fitness < x.fitness then x else c).fitness := by
      split <;> omega
    refine ⟨?_, le_trans hcle ihc, ?_⟩
    · rcases ihmem with heq | hmem
      · by_cases hcx : c.fitness < x.fitness
        · rw [heq, if_pos hcx]
          exact Or.inr (List.mem_cons_self x xs)
        · rw [heq, if_neg hcx]
          exact Or.inl rfl
      · exact Or.inr (List.mem_cons_of_mem x hmem)
    · intro y hy
      rcases List.mem_cons.mp hy with hyx | hyxs
      · rw [hyx]; exact le_trans hxle ihc
      · exact ihall y hyxs

lemma get_best_spec (pop : List Chromosome) (hpop : pop ≠ []) :
    ∃ m, get_best? pop = some m ∧ m ∈ pop ∧ ∀ x ∈ pop, x.fitness ≤ m.fitness := by
  match pop with
  | [] => exact absurd rfl hpop
  | c :: rest =>
    obtain ⟨hmem, hc, hall⟩ := best_fold_spec rest c
    refine ⟨_, rfl, ?_, ?_⟩
    · rcases hmem with heq | hmem
      · rw [heq]; exact List.mem_cons_self c rest
      · exact List.mem_cons_of_mem c hmem
    · intro x hx
      rcases List.mem_cons.mp hx with hxc | hxr
      · rw [hxc]; exact hc
      · exact hall x hxr

lemma best_fitness_spec (pop : List Chromosome) (hpop : pop ≠ []) :
    ∃ m, get_best? pop = some m ∧ m ∈ pop ∧ best_fitness pop = m.fitness ∧
      ∀ x ∈ pop, x.fitness ≤ best_fitness pop := by
  obtain ⟨m, hsome, hmem, hall⟩ := get_best_spec pop hpop
  exact ⟨m, hsome, hmem, by rw [best_fitness, hsome]; rfl,
    fun x hx => by rw [best_fitness, hsome]; exact hall x hx⟩

lemma scan_first_max (pop : List Chromosome) : ∀ (l : List Nat) (b : Nat),
    (scan_best_idx pop l b = b ∧ ∀ j ∈ l, fitAt pop j ≤ fitAt pop b) ∨
    (∃ a t, l = a ++ scan_best_idx pop l b :: t ∧
      fitAt pop b < fitAt pop (scan_best_idx pop l b) ∧
      (∀ j ∈ a, fitAt pop j < fitAt pop (scan_best_idx pop l b)) ∧
      (∀ j ∈ t, fitAt pop j ≤ fitAt pop (scan_best_idx pop l b))) := by
  intro l
  induction l with
  | nil =>
    intro b
    left
    exact ⟨rfl, by simp⟩
  | cons i rest ih =>
    intro b
    by_cases hib : fitAt pop i > fitAt pop b
    · have hsc : scan_best_idx pop (i :: rest) b = scan_best_idx pop rest i := by
        rw [scan_best_idx, if_pos hib]
      rw [hsc]
      rcases ih i with ⟨heq, hle⟩ | ⟨a, t, hsplit, hlt, halt, htle⟩
      · right
        refine ⟨[], rest, ?_, ?_, by simp, ?_⟩
        · rw [heq]; rfl
        · rw [heq]; exact hib
        · intro j hj
          rw [heq]
          exact hle j hj
      · right
        refine ⟨i :: a, t, ?_, by omega, ?_, htle⟩
        · exact congrArg (List.cons i) hsplit
        · intro j hj
          rcases List.mem_cons.mp hj with hji | hja
          · rw [hji]; omega
          · exact halt j hja
    · have hsc : scan_best_idx pop (i :: rest) b = scan_best_idx pop rest b := by
        rw [scan_best_idx, if_neg hib]
      rw [hsc]
      rcases ih b with ⟨heq, hle⟩ | ⟨a, t, hsplit, hlt, halt, htle⟩
      · left
        refine ⟨heq, fun j hj => ?_⟩
        rcases List.mem_cons.mp hj with hji | hjr
        · rw [hji]; omega
        · exact hle j hjr
      · right
        refine ⟨i :: a, t, ?_, hlt, ?_, htle⟩
        · exact congrArg (List.cons i) hsplit
        · intro j hj
          rcases List.mem_cons.mp hj with hji | hja
          · rw [hji]; omega
          · exact halt j hja

/-- C8: for a non-empty population and a shuffled index vector,
`tournament_select` succeeds; the tournament size is clamped to
[1, population size]; the drawn indices are that many distinct in-range
indices; the returned chromosome is the one at the first drawn index
achieving the maximal fitness among the drawn indices (strictly better
than every earlier drawn index); and as soon as the requested size reaches
the population size, the returned fitness is the population's best. -/
theorem C8_tournament_select_spec (pop : List Chromosome) (k : Nat) (perm : List Nat)
    (hpop : pop ≠ []) (hperm : perm.Perm (List.range pop.length)) :
    ∃ sel, tournament_select pop k perm = some sel ∧
      1 ≤ max (min k pop.length) 1 ∧ max (min k pop.length) 1 ≤ pop.length ∧
      (sample_indices (max (min k pop.length) 1) perm).length = max (min k pop.length) 1 ∧
      (sample_indices (max (min k pop.length) 1) perm).Nodup ∧
      (∀ i ∈ sample_indices (max (min k pop.length) 1) perm, i < pop.length) ∧
      (∀ i ∈ sample_indices (max (min k pop.length) 1) perm, fitAt pop i ≤ sel.fitness) ∧
      (∃ a t i0, sample_indices (max (min k pop.length) 1) perm = a ++ i0 :: t ∧
        sel = pop.getD i0 default ∧
        ∀ j ∈ a, fitAt pop j < fitAt pop i0) ∧
      (pop.length ≤ k → sel.fitness = best_fitness pop) := by
  have hn : 1 ≤ pop.length := List.length_pos.mpr hpop
  have hplen : perm.length = pop.length := by
    rw [hperm.length_eq, List.length_range]
  have hk1 : 1 ≤ max (min k pop.length) 1 := le_max_right _ _
  have hkn : max (min k pop.length) 1 ≤ pop.length := by omega
  have hpnodup : perm.Nodup := hperm.nodup_iff.mpr (List.nodup_range _)
  have hmemrange : ∀ i ∈ perm, i < pop.length := by
    intro i hi
    have := hperm.mem_iff.mp hi
    rwa [List.mem_range] at this
  have hlen : (sample_indices (max (min k pop.length) 1) perm).length
      = max (min k pop.length) 1 := by
    rw [sample_indices, List.length_take]
    omega
  have hnodup : (sample_indices (max (min k pop.length) 1) perm).Nodup :=
    (List.take_sublist _ _).nodup hpnodup
  have hsubmem : ∀ i ∈ sample_indices (max (min k pop.length) 1) perm, i < pop.length :=
    fun i hi => hmemrange i (List.mem_of_mem_take hi)
  have hindne : sample_indices (max (min k pop.length) 1) perm ≠ [] :=
    List.length_pos.mp (by rw [hlen]; omega)
  obtain ⟨i0, tl, hind⟩ := List.exists_cons_of_ne_nil hindne
  have hhead : (sample_indices (max (min k pop.length) 1) perm).headD 0 = i0 := by
    rw [hind]; rfl
  have hts : tournament_select pop k perm =
      some (pop.getD (scan_best_idx pop (sample_indices (max (min k pop.length) 1) perm)
        ((sample_indices (max (min k pop.length) 1) perm).headD 0)) default) := by
    match pop, hpop with
    | c :: rest, _ => rfl
  have htake : pop.length ≤ k → sample_indices (max (min k pop.length) 1) perm = perm := by
    intro hkbig
    rw [sample_indices]
    have hmaxeq : max (min k pop.length) 1 = pop.length := by omega
    rw [hmaxeq]
    exact List.take_of_length_le (by omega)
  rcases scan_first_max pop (sample_indices (max (min k pop.length) 1) perm) i0 with
    ⟨heq, hle⟩ | ⟨a, t, hsplit, hlt, halt, htle⟩
  · -- the scan kept the first drawn index
    refine ⟨_, hts.trans (by rw [hhead]), hk1, hkn, hlen, hnodup, hsubmem, ?_, ?_, ?_⟩
    · intro i hi
      rw [heq]
      exact hle i hi
    · refine ⟨[], tl, i0, by rw [hind]; rfl, by rw [heq], by simp⟩
    · intro hkbig
      rw [heq]
      obtain ⟨m, hsome, hmmem, hbf, hball⟩ := best_fitness_spec pop hpop
      have hi0lt : i0 < pop.length := hsubmem i0 (by rw [hind]; exact List.mem_cons_self _ _)
      have hselmem : pop.getD i0 default ∈ pop := by
        rw [List.getD_eq_getElem pop default hi0lt]
        exact List.getElem_mem hi0lt
      obtain ⟨im, him, himeq⟩ := List.getElem_of_mem hmmem
      have himind : im ∈ sample_indices (max (min k pop.length) 1) perm := by
        rw [htake hkbig]
        exact hperm.mem_iff.mpr (List.mem_range.mpr him)
      have hmle : m.fitness ≤ (pop.getD i0 default).fitness := by
        have h1 := hle im himind
        rw [fitAt, List.getD_eq_getElem pop default him, himeq] at h1
        exact h1
      have hself : (pop.getD i0 default).fitness ≤ best_fitness pop := hball _ hselmem
      omega
  · -- the scan moved to a strictly better drawn index
    set r := scan_best_idx pop (sample_indices (max (min k pop.length) 1) perm) i0 with hrdef
    have hrmem : r ∈ sample_indices (max (min k pop.length) 1) perm := by
      rw [hsplit]
      exact List.mem_append_right a (List.mem_cons_self r t)
    refine ⟨_, hts.trans (by rw [hhead]), hk1, hkn, hlen, hnodup, hsubmem, ?_, ?_, ?_⟩
    · intro i hi
      show fitAt pop i ≤ fitAt pop r
      rw [hsplit] at hi
      rcases List.mem_append.mp hi with hia | hit
      · have := halt i hia
        omega
      · rcases List.mem_cons.mp hit with hir | hitt
        · rw [hir]
        · exact htle i hitt
    · exact ⟨a, t, r, hsplit, rfl, halt⟩
    · intro hkbig
      show (pop.getD r default).fitness = best_fitness pop
      obtain ⟨m, hsome, hmmem, hbf, hball⟩ := best_fitness_spec pop hpop
      have hrlt : r < pop.length := hsubmem r hrmem
      have hselmem : pop.getD r default ∈ pop := by
        rw [List.getD_eq_getElem pop default hrlt]
        exact List.getElem_mem hrlt
      obtain ⟨im, him, himeq⟩ := List.getElem_of_mem hmmem
      have himind : im ∈ sample_indices (max (min k pop.length) 1) perm := by
        rw [htake hkbig]
        exact hperm.mem_iff.mpr (List.mem_range.mpr him)
      have hmle : m.fitness ≤ (pop.getD r default).fitness := by
        have hany : fitAt pop im ≤ fitAt pop r := by
          rw [hsplit] at himind
          rcases List.mem_append.mp himind with hia | hit
          · have := halt im hia; omega
          · rcases List.mem_cons.mp hit with hir | hitt
            · rw [hir]
            · exact htle im hitt
        rw [fitAt, List.getD_eq_getElem pop default him, himeq] at hany
        exact hany
      have hself : (pop.getD r default).fitness ≤ best_fitness pop := hball _ hselmem
      omega

/-- Witness for C8 on a concrete two-member population. -/
theorem C8_witness :
    [demoChromosome, demoChromosome] ≠ ([] : List Chromosome) ∧
    ∃ sel, tournament_select [demoChromosome, demoChromosome] 2 [1, 0] = some sel := by
  refine ⟨by simp, ?_⟩
  obtain ⟨sel, hsel, -⟩ := C8_tournament_select_spec [demoChromosome, demoChromosome] 2 [1, 0]
    (by simp) (by decide)
  exact ⟨sel, hsel⟩

/-! ### Elitism and the generation loop (claims C2, C3) -/

lemma run_generation_elitism (pop offspring : List Chromosome) (hpop : pop ≠ []) :
    ∃ b, get_best? pop = some b ∧
      run_generation true pop offspring = b :: offspring.take (pop.length - 1) ∧
      best_fitness pop = b.fitness := by
  obtain ⟨m, hsome, hmem, hbf, hall⟩ := best_fitness_spec pop hpop
  refine ⟨m, hsome, ?_, hbf⟩
  rw [run_generation]
  simp [hsome]

lemma best_fitness_cons_ge (b : Chromosome) (l : List Chromosome) :
    b.fitness ≤ best_fitness (b :: l) := by
  obtain ⟨m, hsome, hmem, hbf, hall⟩ := best_fitness_spec (b :: l) (by simp)
  exact hall b (List.mem_cons_self b l)

lemma run_generation_step (pop offspring : List Chromosome) (hpop : pop ≠ []) :
    best_fitness pop ≤ best_fitness (run_generation true pop offspring) ∧
    run_generation true pop offspring ≠ [] := by
  obtain ⟨b, hsome, hrun, hbf⟩ := run_generation_elitism pop offspring hpop
  rw [hrun, hbf]
  exact ⟨best_fitness_cons_ge b _, by simp⟩

lemma popAt_ne_nil (offs : Nat → List Chromosome) (pop0 : List Chromosome)
    (hpop : pop0 ≠ []) : ∀ n, popAt true offs pop0 n ≠ [] := by
  intro n
  induction n with
  | zero => exact hpop
  | succ n ih =>
    rw [popAt]
    exact (run_generation_step _ _ ih).2

/-- C2: with elitism enabled, one generation never decreases the best
fitness (the new generation starts with a copy of the current best), and
hence the best fitness along a whole run is non-decreasing
generation-over-generation. -/
theorem C2_elitism_monotone (pop offspring : List Chromosome)
    (offs : Nat → List Chromosome) (hpop : pop ≠ []) :
    best_fitness pop ≤ best_fitness (run_generation true pop offspring) ∧
    ∀ n m : Nat, m ≤ n →
      best_fitness (popAt true offs pop m) ≤ best_fitness (popAt true offs pop n) := by
  refine ⟨(run_generation_step pop offspring hpop).1, ?_⟩
  have hstep : ∀ n, best_fitness (popAt true offs pop n) ≤
      best_fitness (popAt true offs pop (n + 1)) := by
    intro n
    rw [popAt]
    exact (run_generation_step _ _ (popAt_ne_nil offs pop hpop n)).1
  intro n
  induction n with
  | zero =>
    intro m hm
    rw [Nat.le_zero.mp hm]
  | succ n ih =>
    intro m hm
    rcases Nat.le_succ_iff.mp hm with hle | heq
    · exact le_trans (ih m hle) (hstep n)
    · rw [heq]

/-- Witness for C2 on a singleton population. -/
theorem C2_witness :
    best_fitness [demoChromosome] ≤
      best_fitness (run_generation true [demoChromosome] []) :=
  (C2_elitism_monotone [demoChromosome] [] (fun _ => []) (by decide)).1

lemma solve_iter_solved (elitism : Bool) (offs : Nat → List Chromosome)
    (maxg : Nat) (pop0 : List Chromosome) :
    ∀ (fuel gen g : Nat), gen + fuel = maxg + 1 → 1 ≤ gen →
    gen ≤ g → g ≤ maxg →
    has_solution (popAt elitism offs pop0 g) = true →
    (∀ g', gen ≤ g' → g' < g → has_solution (popAt elitism offs pop0 g') = false) →
    solve_iter elitism offs maxg fuel gen (popAt elitism offs pop0 (gen - 1)) =
      { solved := true, generations := g, best_fitness := 162,
        best_individual := (get_solution? (popAt elitism offs pop0 g)).getD default } := by
  intro fuel
  induction fuel with
  | zero =>
    intro gen g hsum hgen hgle hgmax _ _
    omega
  | succ fuel ih =>
    intro gen g hsum hgen hgle hgmax hsol hnone
    have hpop' : run_generation elitism (popAt elitism offs pop0 (gen - 1)) (offs gen) =
        popAt elitism offs pop0 gen := by
      have hgen1 : gen = (gen - 1) + 1 := by omega
      conv_rhs => rw [hgen1]
      rw [popAt]
      rw [← hgen1]
    rw [solve_iter, hpop']
    by_cases hg : g = gen
    · subst hg
      rw [if_pos hsol]
    · have hlt : gen < g := by omega
      have hnow : has_solution (popAt elitism offs pop0 gen) = false :=
        hnone gen (le_refl gen) hlt
      rw [if_neg (by rw [hnow]; exact Bool.false_ne_true)]
      have hrw : popAt elitism offs pop0 gen = popAt elitism offs pop0 ((gen + 1) - 1) := by
        norm_num
      rw [hrw]
      exact ih (gen + 1) g (by omega) (by omega) (by omega) hgmax hsol
        (fun g' hg1 hg2 => hnone g' (by omega) hg2)

lemma solve_iter_exhausted (elitism : Bool) (offs : Nat → List Chromosome)
    (maxg : Nat) (pop0 : List Chromosome) :
    ∀ (fuel gen : Nat), gen + fuel = maxg + 1 → 1 ≤ gen →
    (∀ g', gen ≤ g' → g' ≤ maxg → has_solution (popAt elitism offs pop0 g') = false) →
    solve_iter elitism offs maxg fuel gen (popAt elitism offs pop0 (gen - 1)) =
      { solved := false, generations := maxg,
        best_fitness := best_fitness (popAt elitism offs pop0 maxg),
        best_individual := (get_best? (popAt elitism offs pop0 maxg)).getD default } := by
  intro fuel
  induction fuel with
  | zero =>
    intro gen hsum hgen _
    have hgenmax : gen - 1 = maxg := by omega
    rw [solve_iter, hgenmax]
  | succ fuel ih =>
    intro gen hsum hgen hnone
    have hpop' : run_generation elitism (popAt elitism offs pop0 (gen - 1)) (offs gen) =
        popAt elitism offs pop0 gen := by
      have hgen1 : gen = (gen - 1) + 1 := by omega
      conv_rhs => rw [hgen1]
      rw [popAt]
      rw [← hgen1]
    rw [solve_iter, hpop']
    have hnow : has_solution (popAt elitism offs pop0 gen) = false :=
      hnone gen (le_refl gen) (by omega)
    rw [if_neg (by rw [hnow]; exact Bool.false_ne_true)]
    have hrw : popAt elitism offs pop0 gen = popAt elitism offs pop0 ((gen + 1) - 1) := by
      norm_num
    rw [hrw]
    exact ih (gen + 1) (by omega) (by omega)
      (fun g' hg1 hg2 => hnone g' (by omega) hg2)

/-- C3: `solve` terminates in exactly one of three ways.  If the initial
population already has a solution it reports solved at generation 0; if
the first solution appears at generation g (1 ≤ g ≤ max_generations) it
reports solved at generation g with best fitness 162 and carries the
found solution; otherwise it reports unsolved at max_generations with the
final population's best fitness and best individual (carried by value,
the functional counterpart of the C++ deep copy). -/
theorem C3_solve_trichotomy (elitism : Bool) (offs : Nat → List Chromosome)
    (maxg : Nat) (pop0 : List Chromosome) :
    (has_solution pop0 = true →
      solve elitism offs maxg pop0 =
        { solved := true, generations := 0, best_fitness := 162,
          best_individual := (get_solution? pop0).getD default }) ∧
    (has_solution pop0 = false →
      ∀ g, 1 ≤ g → g ≤ maxg →
        has_solution (popAt elitism offs pop0 g) = true →
        (∀ g', 1 ≤ g' → g' < g → has_solution (popAt elitism offs pop0 g') = false) →
        solve elitism offs maxg pop0 =
          { solved := true, generations := g, best_fitness := 162,
            best_individual := (get_solution? (popAt elitism offs pop0 g)).getD default }) ∧
    (has_solution pop0 = false →
      (∀ g, 1 ≤ g → g ≤ maxg → has_solution (popAt elitism offs pop0 g) = false) →
      solve elitism offs maxg pop0 =
        { solved := false, generations := maxg,
          best_fitness := best_fitness (popAt elitism offs pop0 maxg),
          best_individual := (get_best? (popAt elitism offs pop0 maxg)).getD default }) := by
  refine ⟨fun hsol0 => ?_, fun hno0 g hg1 hgmax hsolg hnone => ?_, fun hno0 hnone => ?_⟩
  · rw [solve, if_pos hsol0]
  · rw [solve, if_neg (by rw [hno0]; exact Bool.false_ne_true)]
    have h0 : pop0 = popAt elitism offs pop0 (1 - 1) := rfl
    rw [h0]
    exact solve_iter_solved elitism offs maxg pop0 maxg 1 g (by omega) (le_refl 1)
      hg1 hgmax hsolg (fun g' hga hgb => hnone g' hga hgb)
  · rw [solve, if_neg (by rw [hno0]; exact Bool.false_ne_true)]
    have h0 : pop0 = popAt elitism offs pop0 (1 - 1) := rfl
    rw [h0]
    exact solve_iter_exhausted elitism offs maxg pop0 maxg 1 (by omega) (le_refl 1)
      (fun g' hga hgb => hnone g' hga hgb)

/-- Witness for C3: a population that already contains a solution reports
solved at generation 0. -/
theorem C3_witness :
    has_solution [solvedChromosome] = true ∧
    solve true (fun _ => []) 5 [solvedChromosome] =
      { solved := true, generations := 0, best_fitness := 162,
        best_individual := (get_solution? [solvedChromosome]).getD default } :=
  ⟨by decide, (C3_solve_trichotomy true (fun _ => []) 5 [solvedChromosome]).1 (by decide)⟩

/-! ### The sub-block invariant (claim C1) -/

lemma fillCells_frame : ∀ (cells : List (Fin 9 × Fin 9)) (g : SudokuGrid)
    (vals : List Nat) (p : Fin 9 × Fin 9), p ∉ cells →
    (fillCells g cells vals).grid p.1 p.2 = g.grid p.1 p.2 := by
  intro cells
  induction cells with
  | nil => intro g vals p _; rfl
  | cons q rest ih =>
    intro g vals p hp
    have hpq : p ≠ q := fun h => hp (h ▸ List.mem_cons_self q rest)
    have hprest : p ∉ rest := fun h => hp (List.mem_cons_of_mem q h)
    rw [fillCells]
    split
    · rw [ih _ _ _ hprest]
      have : ¬(p.1 = q.1 ∧ p.2 = q.2) := by
        intro ⟨h1, h2⟩
        exact hpq (Prod.ext h1 h2)
      simp [SudokuGrid.set, this]
    · exact ih _ _ _ hprest

lemma fillCells_fixed : ∀ (cells : List (Fin 9 × Fin 9)) (g : SudokuGrid)
    (vals : List Nat), (fillCells g cells vals).fixed = g.fixed := by
  intro cells
  induction cells with
  | nil => intro g vals; rfl
  | cons q rest ih =>
    intro g vals
    rw [fillCells]
    split
    · rw [ih]; rfl
    · exact ih g vals

/-- The values the placement loop leaves in its cells: the original
non-zero values plus the first (number of empty cells) pending values. -/
lemma fillCells_perm : ∀ (cells : List (Fin 9 × Fin 9)) (g : SudokuGrid)
    (vals : List Nat), cells.Nodup →
    (cells.filter fun p => g.grid p.1 p.2 == 0).length ≤ vals.length →
    (cells.map fun p => (fillCells g cells vals).grid p.1 p.2).Perm
      (((cells.map fun p => g.grid p.1 p.2).filter fun v => v ≠ 0) ++
        vals.take (cells.filter fun p => g.grid p.1 p.2 == 0).length) := by
  intro cells
  induction cells with
  | nil =>
    intro g vals _ _
    simp
  | cons q rest ih =>
    intro g vals hnd hk
    have hqrest : q ∉ rest := (List.nodup_cons.mp hnd).1
    have hndrest : rest.Nodup := (List.nodup_cons.mp hnd).2
    by_cases hz : g.grid q.1 q.2 = 0
    · -- the cell is empty: it receives the next pending value
      have hcons : (q :: rest).filter (fun p => g.grid p.1 p.2 == 0) =
          q :: rest.filter (fun p => g.grid p.1 p.2 == 0) := by
        rw [List.filter_cons]
        simp [hz]
      obtain ⟨v, vtl, hv⟩ : ∃ v vtl, vals = v :: vtl := by
        match vals, hk with
        | v :: vtl, _ => exact ⟨v, vtl, rfl⟩
        | [], hk => rw [hcons] at hk; simp at hk
      subst hv
      have hfill : fillCells g (q :: rest) (v :: vtl) =
          fillCells (g.set q.1 q.2 v) rest vtl := by
        rw [fillCells, if_pos hz]
        rfl
      set g' := g.set q.1 q.2 v with hg'
      have hg'q : g'.grid q.1 q.2 = v := by simp [hg', SudokuGrid.set]
      have hg'rest : ∀ p ∈ rest, g'.grid p.1 p.2 = g.grid p.1 p.2 := by
        intro p hp
        have hpq : p ≠ q := fun h => hqrest (h ▸ hp)
        have : ¬(p.1 = q.1 ∧ p.2 = q.2) := by
          intro ⟨h1, h2⟩
          exact hpq (Prod.ext h1 h2)
        simp [hg', SudokuGrid.set, this]
      have hmapz : rest.filter (fun p => g'.grid p.1 p.2 == 0) =
          rest.filter (fun p => g.grid p.1 p.2 == 0) :=
        List.filter_congr fun p hp => by rw [hg'rest p hp]
      have hk' : (rest.filter fun p => g'.grid p.1 p.2 == 0).length ≤ vtl.length := by
        rw [hmapz]
        rw [hcons] at hk
        simpa using hk
      have hmain := ih g' vtl hndrest hk'
      have hfinalq : (fillCells g' rest vtl).grid q.1 q.2 = v := by
        rw [fillCells_frame rest g' vtl q hqrest, hg'q]
      have hmapfinal : (q :: rest).map
          (fun p => (fillCells g (q :: rest) (v :: vtl)).grid p.1 p.2) =
          v :: rest.map (fun p => (fillCells g' rest vtl).grid p.1 p.2) := by
        rw [List.map_cons]
        rw [hfill, hfinalq]
      rw [hmapfinal, hcons]
      have hfnz : ((q :: rest).map fun p => g.grid p.1 p.2).filter (fun v => v ≠ 0) =
          (rest.map fun p => g.grid p.1 p.2).filter (fun v => v ≠ 0) := by
        rw [List.map_cons, List.filter_cons]
        simp [hz]
      rw [hfnz]
      have htake : (v :: vtl).take (q :: rest.filter fun p => g.grid p.1 p.2 == 0).length =
          v :: vtl.take (rest.filter fun p => g.grid p.1 p.2 == 0).length := by
        rw [List.length_cons, List.take_succ_cons]
      rw [htake]
      rw [hmapz, List.map_congr_left hg'rest] at hmain
      exact (hmain.cons v).trans List.perm_middle.symm
    · -- the cell already holds a value: it is kept
      have hcons : (q :: rest).filter (fun p => g.grid p.1 p.2 == 0) =
          rest.filter (fun p => g.grid p.1 p.2 == 0) := by
        rw [List.filter_cons]
        simp [hz]
      have hfill : fillCells g (q :: rest) vals = fillCells g rest vals := by
        rw [fillCells, if_neg hz]
      have hfinalq : (fillCells g rest vals).grid q.1 q.2 = g.grid q.1 q.2 :=
        fillCells_frame rest g vals q hqrest
      have hmapfinal : (q :: rest).map
          (fun p => (fillCells g (q :: rest) vals).grid p.1 p.2) =
          g.grid q.1 q.2 :: rest.map (fun p => (fillCells g rest vals).grid p.1 p.2) := by
        rw [List.map_cons, hfill, hfinalq]
      have hfnz : ((q :: rest).map fun p => g.grid p.1 p.2).filter (fun v => v ≠ 0) =
          g.grid q.1 q.2 :: (rest.map fun p => g.grid p.1 p.2).filter (fun v => v ≠ 0) := by
        rw [List.map_cons, List.filter_cons]
        simp [hz]
      rw [hmapfinal, hcons, hfnz]
      rw [hcons] at hk
      exact (ih g vals hndrest hk).cons _

lemma subblockCells_length : ∀ b : Fin 9, (subblockCells b).length = 9 := by decide

lemma digits19_nodup : digits19.Nodup := by decide

lemma fill_subblock_spec (c : Chromosome) (b : Fin 9) (shuffled : List Nat)
    (hvals : ∀ p ∈ subblockCells b, c.grid.grid p.1 p.2 ≤ 9)
    (hnd : ((blockValues c.grid b).filter fun v => v ≠ 0).Nodup)
    (hperm : shuffled.Perm (missing_digits c.grid b)) :
    blockOk (c.fill_subblock_random b shuffled).grid b ∧
    (∀ p : Fin 9 × Fin 9, p ∉ subblockCells b →
      (c.fill_subblock_random b shuffled).grid.grid p.1 p.2 = c.grid.grid p.1 p.2) ∧
    (c.fill_subblock_random b shuffled).grid.fixed = c.grid.fixed ∧
    (c.fill_subblock_random b shuffled).cached_fitness = c.cached_fitness := by
  set g := c.grid with hgdef
  set nz := (blockValues g b).filter (fun v => v ≠ 0) with hnzdef
  set present := present_digits g b with hpresdef
  have hpres_nz : present = nz.toFinset := rfl
  -- the present digits of the block lie in 1..9
  have hnzsub : ∀ v ∈ nz, v ∈ digits19 := by
    intro v hv
    obtain ⟨hvmem, hvne⟩ := List.mem_filter.mp hv
    obtain ⟨p, hp, hpv⟩ := List.mem_map.mp hvmem
    have hle : v ≤ 9 := hpv ▸ hvals p hp
    have hne : v ≠ 0 := by simpa using hvne
    simp only [digits19, List.mem_map, List.mem_range]
    exact ⟨v - 1, by omega, by omega⟩
  -- the digits marked present, read off 1..9 in order, are a permutation
  -- of the block's non-zero values
  have hinperm : (digits19.filter fun d => decide (d ∈ present)).Perm nz := by
    apply List.perm_of_nodup_nodup_toFinset_eq (digits19_nodup.filter _) hnd
    ext x
    simp only [List.toFinset_filter, List.mem_filter, Finset.mem_filter,
      List.mem_toFinset, hpres_nz, decide_eq_true_eq]
    constructor
    · rintro ⟨-, hx⟩
      exact hx
    · intro hx
      exact ⟨hnzsub x hx, hx⟩
  -- the missing digits are the 1..9 digits not marked present
  have hmiss_eq : missing_digits g b = digits19.filter fun d => !decide (d ∈ present) := by
    rw [missing_digits]
    apply List.filter_congr
    intro d _
    rw [decide_not]
  -- splitting 1..9 into present and missing digits
  have hsplit : ((digits19.filter fun d => decide (d ∈ present)) ++
      (digits19.filter fun d => !decide (d ∈ present))).Perm digits19 :=
    List.filter_append_perm _ digits19
  -- counting: the number of empty cells equals the number of missing digits
  have hlen9 : (blockValues g b).length = 9 := by
    rw [blockValues, List.length_map, subblockCells_length]
  have hzsplit : (((blockValues g b).filter fun v => v == 0) ++
      ((blockValues g b).filter fun v => !(v == 0))).Perm (blockValues g b) :=
    List.filter_append_perm _ _
  have hnz_eq : (blockValues g b).filter (fun v => !(v == 0)) = nz := by
    rw [hnzdef]
    apply List.filter_congr
    intro v _
    by_cases hv : v = 0 <;> simp [hv]
  have hcount : ((blockValues g b).filter fun v => v == 0).length + nz.length = 9 := by
    have := hzsplit.length_eq
    rw [List.length_append, hnz_eq] at this
    omega
  have hmisslen : (missing_digits g b).length + nz.length = 9 := by
    have h1 := hsplit.length_eq
    rw [List.length_append, hinperm.length_eq] at h1
    have hd9 : digits19.length = 9 := by decide
    rw [hmiss_eq]
    omega
  have hcellzero : (subblockCells b).filter (fun p => g.grid p.1 p.2 == 0) =
      ((subblockCells b).filter fun p => (fun v => v == 0) (g.grid p.1 p.2)) := rfl
  have hkmap : ((subblockCells b).filter fun p => g.grid p.1 p.2 == 0).length =
      ((blockValues g b).filter fun v => v == 0).length := by
    rw [blockValues, List.filter_map]
    rw [List.length_map]
    rfl
  have hklen : ((subblockCells b).filter fun p => g.grid p.1 p.2 == 0).length
      = shuffled.length := by
    rw [hperm.length_eq, hkmap]
    omega
  -- the filled block is a permutation of 1..9
  have hfperm := fillCells_perm (subblockCells b) g shuffled (subblockCells_nodup b)
    (by omega)
  have htake : shuffled.take ((subblockCells b).filter
      (fun p => g.grid p.1 p.2 == 0)).length = shuffled := by
    rw [hklen]
    exact List.take_length shuffled
  rw [htake] at hfperm
  have hblockOk : blockOk (c.fill_subblock_random b shuffled).grid b := by
    rw [blockOk, blockValues]
    have hgridfill : (c.fill_subblock_random b shuffled).grid =
        fillCells g (subblockCells b) shuffled := rfl
    rw [hgridfill]
    refine hfperm.trans ?_
    -- nz ++ shuffled ~ digits19
    have h1 : (((subblockCells b).map fun p => g.grid p.1 p.2).filter
        (fun v => v ≠ 0)) = nz := rfl
    rw [h1]
    have s1 : (nz ++ shuffled).Perm (nz ++ missing_digits g b) :=
      hperm.append_left nz
    have s2 : (nz ++ missing_digits g b).Perm
        ((digits19.filter fun d => decide (d ∈ present)) ++ missing_digits g b) :=
      (hinperm.symm).append_right _
    have s3 : ((digits19.filter fun d => decide (d ∈ present)) ++
        missing_digits g b).Perm digits19 := by
      rw [hmiss_eq]
      exact hsplit
    exact (s1.trans s2).trans s3
  refine ⟨hblockOk, ?_, ?_, rfl⟩
  · intro p hp
    exact fillCells_frame (subblockCells b) g shuffled p hp
  · exact fillCells_fixed (subblockCells b) g shuffled

lemma subblock_disjoint {b b' : Fin 9} (hne : b ≠ b') {p : Fin 9 × Fin 9}
    (hp : p ∈ subblockCells b) : p ∉ subblockCells b' := by
  rw [mem_subblockCells] at hp ⊢
  intro hp'
  obtain ⟨h1, h2⟩ := hp
  obtain ⟨h1', h2'⟩ := hp'
  apply hne
  apply Fin.ext
  omega

lemma blockValues_congr {g g' : SudokuGrid} {b : Fin 9}
    (h : ∀ p ∈ subblockCells b, g'.grid p.1 p.2 = g.grid p.1 p.2) :
    blockValues g' b = blockValues g b :=
  List.map_congr_left h

lemma present_congr {g g' : SudokuGrid} {b : Fin 9}
    (h : ∀ p ∈ subblockCells b, g'.grid p.1 p.2 = g.grid p.1 p.2) :
    present_digits g' b = present_digits g b := by
  rw [present_digits, present_digits, List.map_congr_left h]

lemma missing_congr {g g' : SudokuGrid} {b : Fin 9}
    (h : ∀ p ∈ subblockCells b, g'.grid p.1 p.2 = g.grid p.1 p.2) :
    missing_digits g' b = missing_digits g b := by
  rw [missing_digits, missing_digits, present_congr h]

lemma init_fold_spec (shuffles : Fin 9 → List Nat) :
    ∀ (bs : List (Fin 9)) (c : Chromosome), bs.Nodup →
    (∀ b ∈ bs, ∀ p ∈ subblockCells b, c.grid.grid p.1 p.2 ≤ 9) →
    (∀ b ∈ bs, ((blockValues c.grid b).filter fun v => v ≠ 0).Nodup) →
    (∀ b ∈ bs, (shuffles b).Perm (missing_digits c.grid b)) →
    (∀ b ∈ bs, blockOk
      ((bs.foldl (fun ch b => ch.fill_subblock_random b (shuffles b)) c)).grid b) ∧
    (∀ p : Fin 9 × Fin 9, (∀ b ∈ bs, p ∉ subblockCells b) →
      ((bs.foldl (fun ch b => ch.fill_subblock_random b (shuffles b)) c)).grid.grid p.1 p.2
        = c.grid.grid p.1 p.2) ∧
    ((bs.foldl (fun ch b => ch.fill_subblock_random b (shuffles b)) c)).grid.fixed
      = c.grid.fixed := by
  intro bs
  induction bs with
  | nil =>
    intro c _ _ _ _
    exact ⟨by simp, fun p _ => rfl, rfl⟩
  | cons b rest ih =>
    intro c hnd hv hd hp
    have hbrest : b ∉ rest := (List.nodup_cons.mp hnd).1
    have hndrest : rest.Nodup := (List.nodup_cons.mp hnd).2
    obtain ⟨hOk1, hfr1, hfix1, -⟩ := fill_subblock_spec c b (shuffles b)
      (hv b (List.mem_cons_self b rest)) (hd b (List.mem_cons_self b rest))
      (hp b (List.mem_cons_self b rest))
    set c1 := c.fill_subblock_random b (shuffles b) with hc1
    have hfold : (b :: rest).foldl (fun ch b => ch.fill_subblock_random b (shuffles b)) c
        = rest.foldl (fun ch b => ch.fill_subblock_random b (shuffles b)) c1 := rfl
    -- the fill of block b leaves every other block's cells untouched
    have hother : ∀ b' ∈ rest, ∀ p ∈ subblockCells b',
        c1.grid.grid p.1 p.2 = c.grid.grid p.1 p.2 := by
      intro b' hb' p hpmem
      have hne : b' ≠ b := fun h => hbrest (h ▸ hb')
      exact hfr1 p (subblock_disjoint hne hpmem)
    obtain ⟨ihOk, ihfr, ihfix⟩ := ih c1 hndrest
      (fun b' hb' p hpmem => by
        rw [hother b' hb' p hpmem]
        exact hv b' (List.mem_cons_of_mem b hb') p hpmem)
      (fun b' hb' => by
        rw [blockValues_congr (hother b' hb')]
        exact hd b' (List.mem_cons_of_mem b hb'))
      (fun b' hb' => by
        rw [missing_congr (hother b' hb')]
        exact hp b' (List.mem_cons_of_mem b hb'))
    rw [hfold]
    refine ⟨?_, ?_, ihfix.trans hfix1⟩
    · intro b' hb'
      rcases List.mem_cons.mp hb' with hbb | hbr
      · subst hbb
        -- block b' was filled first and later fills leave it untouched
        rw [blockOk, blockValues_congr (g := c1.grid) ?_]
        · exact hOk1
        · intro p hpmem
          refine ihfr p ?_
          intro b'' hb''
          have hne : b'' ≠ b' := fun h => hbrest (h ▸ hb'')
          exact subblock_disjoint hne.symm hpmem
      · exact ihOk b' hbr
    · intro p hpall
      rw [ihfr p (fun b'' hb'' => hpall b'' (List.mem_cons_of_mem b hb''))]
      exact hfr1 p (hpall b (List.mem_cons_self b rest))

lemma map_swap_perm (cells : List (Fin 9 × Fin 9)) (f f' : Fin 9 × Fin 9 → Nat)
    (p1 p2 : Fin 9 × Fin 9) (hnd : cells.Nodup) (h1 : p1 ∈ cells) (h2 : p2 ∈ cells)
    (hne : p1 ≠ p2) (hf1 : f' p1 = f p2) (hf2 : f' p2 = f p1)
    (hfo : ∀ q, q ≠ p1 → q ≠ p2 → f' q = f q) :
    (cells.map f').Perm (cells.map f) := by
  obtain ⟨R, hc⟩ : ∃ R, cells.Perm (p1 :: p2 :: R) := by
    have e1 := List.perm_cons_erase h1
    have h2'' := e1.mem_iff.mp h2
    rcases List.mem_cons.mp h2'' with he | hmem
    · exact absurd he.symm hne
    · exact ⟨_, e1.trans ((List.perm_cons_erase hmem).cons p1)⟩
  have hndR : (p1 :: p2 :: R).Nodup := hc.nodup_iff.mp hnd
  have hq1 : ∀ q ∈ R, q ≠ p1 := by
    intro q hq he
    exact (List.nodup_cons.mp hndR).1 (he ▸ List.mem_cons_of_mem p2 hq)
  have hq2 : ∀ q ∈ R, q ≠ p2 := by
    intro q hq he
    exact (List.nodup_cons.mp (List.nodup_cons.mp hndR).2).1 (he ▸ hq)
  have hmapR : R.map f' = R.map f :=
    List.map_congr_left fun q hq => hfo q (hq1 q hq) (hq2 q hq)
  refine (hc.map f').trans (List.Perm.trans ?_ (hc.map f).symm)
  rw [List.map_cons, List.map_cons, List.map_cons, List.map_cons, hf1, hf2, hmapR]
  exact List.Perm.swap (f p1) (f p2) _

/-- The non-fixed positions depend only on the fixed mask. -/
lemma positions_congr {g g' : SudokuGrid} (h : g'.fixed = g.fixed) (b : Fin 9) :
    g'.get_subblock_non_fixed_positions b = g.get_subblock_non_fixed_positions b := by
  rw [SudokuGrid.get_subblock_non_fixed_positions, SudokuGrid.get_subblock_non_fixed_positions, h]

lemma mutate_subblock_blocksOk {c : Chromosome} {b : Fin 9} {iRaw jRaw : Nat}
    (hr : raws_ok c b iRaw jRaw) (h : blocksOk c.grid) :
    blocksOk (mutate_subblock c b iRaw jRaw).grid := by
  by_cases hlen : (c.grid.get_subblock_non_fixed_positions b).length < 2
  · rw [(mutate_subblock_frame_spec c b iRaw jRaw
      (fun h2 => (hr h2).1) (fun h2 => (hr h2).2)).2.2.1 hlen]
    exact h
  · push_neg at hlen
    obtain ⟨hfix, hcach, -, hswap⟩ := mutate_subblock_frame_spec c b iRaw jRaw
      (fun h2 => (hr h2).1) (fun h2 => (hr h2).2)
    obtain ⟨-, -, -, hpne, hblk1, hblk2, -, -, hv1, hv2, hframe⟩ := hswap hlen
    intro b'
    by_cases hbb : b' = b
    · subst hbb
      rw [blockOk, blockValues]
      refine List.Perm.trans ?_ (h b')
      exact map_swap_perm (subblockCells b') _ _ _ _ (subblockCells_nodup b')
        (mem_subblockCells.mpr hblk1) (mem_subblockCells.mpr hblk2) hpne hv1 hv2 hframe
    · have hbv : blockValues (mutate_subblock c b iRaw jRaw).grid b'
          = blockValues c.grid b' := by
        apply List.map_congr_left
        intro q hq
        have hq1 : q ≠ (c.grid.get_subblock_non_fixed_positions b).getD
            (two_distinct_indices iRaw jRaw).1 (0, 0) := by
          intro he
          exact subblock_disjoint (fun hx => hbb hx) hq (he ▸ mem_subblockCells.mpr hblk1)
        have hq2 : q ≠ (c.grid.get_subblock_non_fixed_positions b).getD
            (two_distinct_indices iRaw jRaw).2 (0, 0) := by
          intro he
          exact subblock_disjoint (fun hx => hbb hx) hq (he ▸ mem_subblockCells.mpr hblk2)
        exact hframe q hq1 hq2
      rw [blockOk, hbv]
      exact h b'

lemma crossover_blocksOk (p1 p2 : Chromosome)
    (h1 : blocksOk p1.grid) (h2 : blocksOk p2.grid) :
    blocksOk (crossover p1 p2).1.grid ∧ blocksOk (crossover p1 p2).2.grid := by
  constructor
  · intro b
    have hgr : ∀ r c : Fin 9, (crossover p1 p2).1.grid.grid r c =
        if p2.grid.get_row_band_score (row_band_of r) >
            p1.grid.get_row_band_score (row_band_of r)
        then p2.grid.grid r c else p1.grid.grid r c := fun r c =>
      band_fold_grid p1.grid p2.grid
        (fun band => p2.grid.get_row_band_score band > p1.grid.get_row_band_score band) r c
    by_cases hc : p2.grid.get_row_band_score ⟨b.val / 3, by omega⟩ >
        p1.grid.get_row_band_score ⟨b.val / 3, by omega⟩
    · have hbv : blockValues (crossover p1 p2).1.grid b = blockValues p2.grid b := by
        apply List.map_congr_left
        intro p hp
        have hblk := mem_subblockCells.mp hp
        have hband : row_band_of p.1 = ⟨b.val / 3, by omega⟩ := Fin.ext hblk.1
        rw [hgr p.1 p.2, hband, if_pos hc]
      rw [blockOk, hbv]
      exact h2 b
    · have hbv : blockValues (crossover p1 p2).1.grid b = blockValues p1.grid b := by
        apply List.map_congr_left
        intro p hp
        have hblk := mem_subblockCells.mp hp
        have hband : row_band_of p.1 = ⟨b.val / 3, by omega⟩ := Fin.ext hblk.1
        rw [hgr p.1 p.2, hband, if_neg hc]
      rw [blockOk, hbv]
      exact h1 b
  · intro b
    have hgr : ∀ r c : Fin 9, (crossover p1 p2).2.grid.grid r c =
        if p2.grid.get_column_stack_score (col_stack_of c) >
            p1.grid.get_column_stack_score (col_stack_of c)
        then p2.grid.grid r c else p1.grid.grid r c := fun r c =>
      stack_fold_grid p1.grid p1.grid p2.grid
        (fun stack => p2.grid.get_column_stack_score stack >
          p1.grid.get_column_stack_score stack) r c
    by_cases hc : p2.grid.get_column_stack_score ⟨b.val % 3, by omega⟩ >
        p1.grid.get_column_stack_score ⟨b.val % 3, by omega⟩
    · have hbv : blockValues (crossover p1 p2).2.grid b = blockValues p2.grid b := by
        apply List.map_congr_left
        intro p hp
        have hblk := mem_subblockCells.mp hp
        have hstack : col_stack_of p.2 = ⟨b.val % 3, by omega⟩ := Fin.ext hblk.2
        rw [hgr p.1 p.2, hstack, if_pos hc]
      rw [blockOk, hbv]
      exact h2 b
    · have hbv : blockValues (crossover p1 p2).2.grid b = blockValues p1.grid b := by
        apply List.map_congr_left
        intro p hp
        have hblk := mem_subblockCells.mp hp
        have hstack : col_stack_of p.2 = ⟨b.val % 3, by omega⟩ := Fin.ext hblk.2
        rw [hgr p.1 p.2, hstack, if_neg hc]
      rw [blockOk, hbv]
      exact h1 b

lemma mutate_characterization (c : Chromosome) (rate : ℚ) (rolls : Fin 9 → ℚ)
    (raws : Fin 9 → Nat × Nat) :
    mutate c rate rolls raws =
      (if ((List.finRange 9).filter fun b' => decide (rolls b' < rate)).isEmpty
       then c
       else (((List.finRange 9).filter fun b' => decide (rolls b' < rate)).foldl
          (fun ch b' => mutate_subblock ch b' (raws b').1 (raws b').2) c).recalculate_fitness) := by
  rw [mutate]
  rw [mutate_fold_characterization rate rolls raws (List.finRange 9) c false]
  by_cases he : ((List.finRange 9).filter fun b' => decide (rolls b' < rate)).isEmpty
  · rw [if_pos he]
    have hnil : ((List.finRange 9).filter fun b' => decide (rolls b' < rate)) = [] :=
      List.isEmpty_iff.mp he
    simp [hnil, he]
  · rw [if_neg he]
    simp [he]

lemma mutate_blocksOk {c : Chromosome} {rate : ℚ} {rolls : Fin 9 → ℚ}
    {raws : Fin 9 → Nat × Nat}
    (hr : ∀ b : Fin 9, raws_ok c b (raws b).1 (raws b).2)
    (h : blocksOk c.grid) : blocksOk (mutate c rate rolls raws).grid := by
  have key : ∀ (l : List (Fin 9)) (ch : Chromosome), blocksOk ch.grid →
      ch.grid.fixed = c.grid.fixed →
      blocksOk ((l.foldl (fun ch b => mutate_subblock ch b (raws b).1 (raws b).2) ch)).grid ∧
      ((l.foldl (fun ch b => mutate_subblock ch b (raws b).1 (raws b).2) ch)).grid.fixed
        = c.grid.fixed := by
    intro l
    induction l with
    | nil => intro ch hok hfix; exact ⟨hok, hfix⟩
    | cons b rest ih =>
      intro ch hok hfix
      have hrok : raws_ok ch b (raws b).1 (raws b).2 := by
        rw [raws_ok, positions_congr hfix]
        exact hr b
      have hfix' : (mutate_subblock ch b (raws b).1 (raws b).2).grid.fixed
          = c.grid.fixed := by
        rw [(mutate_subblock_frame_spec ch b _ _
          (fun h2 => (hrok h2).1) (fun h2 => (hrok h2).2)).1, hfix]
      exact ih _ (mutate_subblock_blocksOk hrok hok) hfix'
  rw [mutate_characterization]
  by_cases he : ((List.finRange 9).filter fun b' => decide (rolls b' < rate)).isEmpty
  · rw [if_pos he]
    exact h
  · rw [if_neg he]
    exact (key _ c h rfl).1

lemma recalc_grid (c : Chromosome) : c.recalculate_fitness.grid = c.grid := rfl

lemma ls_candidate_grid (parent : Chromosome) (d : Fin 9 × Nat × Nat) :
    (ls_candidate parent d).grid = (mutate_subblock parent d.1 d.2.1 d.2.2).grid := by
  rw [ls_candidate, recalc_grid]

lemma local_search_blocksOk {parent : Chromosome} {draws : List (Fin 9 × Nat × Nat)}
    (hr : ∀ d ∈ draws, raws_ok parent d.1 d.2.1 d.2.2)
    (h : blocksOk parent.grid) : blocksOk (local_search parent draws).grid := by
  have key : ∀ (ds : List (Fin 9 × Nat × Nat)) (best : Chromosome) (bf : Nat),
      (∀ d ∈ ds, raws_ok parent d.1 d.2.1 d.2.2) → blocksOk best.grid →
      blocksOk (local_search_go parent ds best bf).grid := by
    intro ds
    induction ds with
    | nil => intro best bf _ hb; exact hb
    | cons d rest ih =>
      intro best bf hds hb
      have hcand : blocksOk (ls_candidate parent d).grid := by
        rw [ls_candidate_grid]
        exact mutate_subblock_blocksOk (hds d (List.mem_cons_self d rest)) h
      by_cases hacc : (ls_candidate parent d).fitness > bf
      · have hgo : local_search_go parent (d :: rest) best bf =
            local_search_go parent rest (ls_candidate parent d)
              (ls_candidate parent d).fitness := by
          rw [local_search_go, if_pos hacc]
        rw [hgo]
        exact ih _ _ (fun d' hd' => hds d' (List.mem_cons_of_mem d hd')) hcand
      · have hgo : local_search_go parent (d :: rest) best bf =
            local_search_go parent rest best bf := by
          rw [local_search_go, if_neg hacc]
        rw [hgo]
        exact ih _ _ (fun d' hd' => hds d' (List.mem_cons_of_mem d hd')) hb
  have hls : (local_search parent draws).grid
      = (local_search_go parent draws parent parent.fitness).grid := by
    rw [local_search]
  rw [blocksOk] at *
  intro b
  rw [hls]
  exact key draws parent parent.fitness hr h b

lemma GAReach_blocksOk {c0 c : Chromosome} (h0 : blocksOk c0.grid)
    (h : GAReach c0 c) : blocksOk c.grid := by
  induction h with
  | refl => exact h0
  | cross_fst other _ hother ih => exact (crossover_blocksOk _ other ih hother).1
  | cross_snd other _ hother ih => exact (crossover_blocksOk _ other ih hother).2
  | cross_fst_of other _ hother ih => exact (crossover_blocksOk other _ hother ih).1
  | cross_snd_of other _ hother ih => exact (crossover_blocksOk other _ hother ih).2
  | step_msub b iRaw jRaw _ hr ih => exact mutate_subblock_blocksOk hr ih
  | step_mut rate rolls raws _ hr ih => exact mutate_blocksOk hr ih
  | step_ls draws _ hr ih => exact local_search_blocksOk hr ih

/-- C1 (amended): for a puzzle grid with cell values in [0,9] whose
non-zero entries are pairwise distinct inside each sub-block (true of
every well-formed puzzle), the chromosome built from it and filled by the
random initializer satisfies the sub-block invariant — every sub-block
holds each digit 1-9 exactly once; and from any chromosome satisfying the
invariant, every sequence of crossover (with invariant-satisfying
partners), mutate, mutate_subblock and local_search applications yields
only chromosomes that satisfy it. -/
theorem C1_subblock_invariant (g : SudokuGrid) (shuffles : Fin 9 → List Nat)
    (hvals : ∀ r c : Fin 9, g.grid r c ≤ 9)
    (hdup : ∀ b : Fin 9, ((blockValues g b).filter fun v => v ≠ 0).Nodup)
    (hperm : ∀ b : Fin 9, (shuffles b).Perm (missing_digits g b)) :
    blocksOk ((Chromosome.ofPuzzle g).init_random shuffles).grid ∧
    ∀ c0 c : Chromosome, blocksOk c0.grid → GAReach c0 c → blocksOk c.grid := by
  constructor
  · have hmain := init_fold_spec shuffles (List.finRange 9) (Chromosome.ofPuzzle g)
      (List.nodup_finRange 9)
      (fun _ _ p _ => hvals p.1 p.2)
      (fun b _ => hdup b)
      (fun b _ => hperm b)
    intro b
    have hgrid : ((Chromosome.ofPuzzle g).init_random shuffles).grid =
        ((List.finRange 9).foldl
          (fun ch b => ch.fill_subblock_random b (shuffles b))
          (Chromosome.ofPuzzle g)).grid := by
      rw [Chromosome.init_random, recalc_grid]
    rw [blockOk, hgrid]
    exact hmain.1 b (List.mem_finRange b)
  · exact fun c0 c h0 hreach => GAReach_blocksOk h0 hreach

/-- Counterexample to C1 as stated: a puzzle grid (with all cell values in
[0,9]) whose first sub-block holds the given digit 1 twice; after the
random initializer, block 0 does not contain each digit 1-9 exactly
once. -/
theorem C1_counterexample :
    (∀ r c : Fin 9, dupPuzzle.grid r c ≤ 9) ∧
    (∀ b : Fin 9, (dupShuffles b).Perm (missing_digits dupPuzzle b)) ∧
    ¬ blocksOk ((Chromosome.ofPuzzle dupPuzzle).init_random dupShuffles).grid :=
  ⟨by decide, fun b => List.Perm.refl _, by decide⟩

/-- Witness for C1 (amended) at the empty puzzle with identity shuffles. -/
theorem C1_witness :
    blocksOk ((Chromosome.ofPuzzle SudokuGrid.empty).init_random
      (fun b => missing_digits SudokuGrid.empty b)).grid :=
  (C1_subblock_invariant SudokuGrid.empty _ (by decide) (by decide)
    (fun _ => List.Perm.refl _)).1

end SudokuGA
